import Mathlib

/-!
Verification development for the ProjectAIGirlfriend repository.

Shallow embedding of the parts of the code base the verified statements
are about:

* `src/todo_system.py` — the task list engine (`TodoList` and its
  operations on task records stored as Python dicts);
* `src/core/chat_handler.py` — the stream function detector and the
  recursive conversation-turn driver;
* `src/core/function_registry.py` — the smart parameter parser and the
  unified function registry;
* `src/core/session_manager.py` — session creation and persistence.

Modelling conventions:

* Python strings are `List Char` (`Str`); Python ints are `Int`;
  timestamps are an abstract `Time := Nat`, passed explicitly to every
  operation that calls `datetime.now()` (one value per operation; the
  code may take several clock readings inside one operation, but nothing
  verified here depends on two readings differing).
* Python dicts holding task records are a structure whose possibly
  absent keys (`progress`, `subtasks`, `execution_log`, the timestamp
  fields and `activeForm` are missing on records built by `update_all`)
  are `Option` fields; reading an absent key raises `KeyError`, modelled
  by `Except PyErr`.  For the write-only fields (`activeForm`,
  `created_at`, `started_at`, `completed_at`) a `none` conflates the
  absent key with a stored Python `None`: no engine operation reads
  them before assigning them, so the two are observationally equal.
* Operations return `Except PyErr α × List Todo`: the second component
  is the post-state even when an exception escapes, matching in-place
  mutation performed before a raise.
* The progress recomputation in `complete_subtask` evaluates
  `int((completed_count / total_count) * 100)` in IEEE-754 double
  precision; `floatPct` below reproduces that arithmetic exactly with
  integer computations (correctly rounded division, round half to even).
-/

set_option maxRecDepth 4000

abbrev Str := List Char

def str (s : String) : Str := s.data

/-- Index of the first occurrence of `pat` in `s` (Python `s.find(pat)`
restricted to the found case); `none` when `pat` does not occur. -/
def firstIdx (pat : Str) : Str → Option Nat
  | [] => if pat.isEmpty then some 0 else none
  | c :: cs => if pat.isPrefixOf (c :: cs) then some 0 else (firstIdx pat cs).map (· + 1)

/-- Python `pat in s` substring test. -/
def containsStr (s pat : Str) : Bool := (firstIdx pat s).isSome

/-- Python `s[-n:]`: the last `n` characters (the whole list when shorter). -/
def takeRight (n : Nat) (s : Str) : Str := s.drop (s.length - n)

def isPyWs (c : Char) : Bool :=
  c == ' ' || c == '\t' || c == '\n' || c == '\r' || c == '\x0b' || c == '\x0c'

/-- Python `str.strip()` with no argument (whitespace on both ends). -/
def stripStr (s : Str) : Str :=
  ((s.dropWhile isPyWs).reverse.dropWhile isPyWs).reverse

/-- Python `str.lower()` (ASCII case folding suffices for the inputs used). -/
def lowerStr (s : Str) : Str := s.map Char.toLower

def natToStr (n : Nat) : Str := (toString n).data

def intToStr (n : Int) : Str := (toString n).data

/-! ### Exact model of the one floating-point computation in the engine

`todo_system.py` line 172 computes `int((completed_count / total_count) * 100)`.
Both `/` and `*` are IEEE-754 binary64 operations.  `floatPct` reproduces
the computation exactly: `roundDivD` is the correctly rounded (round half
to even) double division of two naturals as a (mantissa, exponent) pair
with `2^52 ≤ mantissa < 2^53`, `roundMul100` the correctly rounded
multiplication by 100, and the final step truncates toward zero.  Inputs
here are far inside the normal range, so overflow/subnormal handling is
not needed.  The scaling loops carry fuel; 1100 steps cover every input
with numerator and denominator below `2^520`, far beyond any reachable
subtask count. -/

def scaleUp : Nat → Nat → Nat → Int → Nat × Nat × Int
  | 0, n, d, e => (n, d, e)
  | fuel + 1, n, d, e =>
    if n < d * 2 ^ 52 then scaleUp fuel (2 * n) d (e - 1) else (n, d, e)

def scaleDown : Nat → Nat → Nat → Int → Nat × Nat × Int
  | 0, n, d, e => (n, d, e)
  | fuel + 1, n, d, e =>
    if d * 2 ^ 53 ≤ n then scaleDown fuel n (2 * d) (e + 1) else (n, d, e)

/-- Round the quotient with remainder `r` over divisor `d` half to even. -/
def roundHalfEven (q r d : Nat) : Nat :=
  if 2 * r > d ∨ (2 * r = d ∧ q % 2 = 1) then q + 1 else q

/-- Correctly rounded binary64 division `n / d` for positive naturals,
as mantissa and binary exponent with `value = m * 2 ^ e`. -/
def roundDivD (n d : Nat) : Nat × Int :=
  let (n1, d1, e1) := scaleUp 1100 n d 0
  let (n2, d2, e2) := scaleDown 1100 n1 d1 e1
  let q := roundHalfEven (n2 / d2) (n2 % d2) d2
  if q = 2 ^ 53 then (2 ^ 52, e2 + 1) else (q, e2)

def bitLen : Nat → Nat → Nat
  | 0, _ => 0
  | fuel + 1, n => if n = 0 then 0 else bitLen fuel (n / 2) + 1

/-- Correctly rounded binary64 multiplication of `m * 2 ^ e` by 100. -/
def roundMul100 (m : Nat) (e : Int) : Nat × Int :=
  let n2 := m * 100
  let k := bitLen 200 n2 - 53
  if k = 0 then (n2, e) else
  let q := roundHalfEven (n2 / 2 ^ k) (n2 % 2 ^ k) (2 ^ k)
  if q = 2 ^ 53 then (2 ^ 52, e + k + 1) else (q, e + k)

/-- Exact value of Python `int((c / t) * 100)` for naturals `0 ≤ c`, `0 < t`
computed in binary64 arithmetic. -/
def floatPct (c t : Nat) : Nat :=
  if c = 0 then 0 else
  let (m, e) := roundDivD c t
  let (m2, e2) := roundMul100 m e
  if 0 ≤ e2 then m2 * 2 ^ e2.toNat else m2 / 2 ^ (-e2).toNat

/-! ### Task list engine (`src/todo_system.py`) -/

abbrev Time := Nat

inductive PyErr where
  | keyError (key : Str)
  deriving DecidableEq

structure LogEntry where
  timestamp : Time
  action : Str
  description : Str
  deriving DecidableEq

structure Subtask where
  id : Str
  content : Str
  completed : Bool
  deriving DecidableEq

structure Todo where
  id : Int
  content : Str
  status : Str
  priority : Str
  progress : Option Int
  activeForm : Option Str
  subtasks : Option (List Subtask)
  created_at : Option Time
  started_at : Option Time
  completed_at : Option Time
  execution_log : Option (List LogEntry)
  deriving DecidableEq

structure TodoList where
  todos : List Todo
  deriving DecidableEq

def statusPending : Str := str "pending"

def statusInProgress : Str := str "in_progress"

def statusCompleted : Str := str "completed"

/-- First task with the given id (`for todo in self.todos: if todo["id"] == id`). -/
def findTodo (i : Int) : List Todo → Option Todo
  | [] => none
  | t :: ts => if t.id = i then some t else findTodo i ts

/-- Replace the first task with the given id by `f` of it (in-place mutation
of the dict found by the id scan). -/
def updateTodo (i : Int) (f : Todo → Todo) : List Todo → List Todo
  | [] => []
  | t :: ts => if t.id = i then f t :: ts else t :: updateTodo i f ts

/-- `TodoList.add`: appends a fresh full record with id = size + 1. -/
def TodoList.add (l : TodoList) (content : Str) (priority : Str) (now : Time) :
    Todo × TodoList :=
  let todo : Todo :=
    { id := Int.ofNat l.todos.length + 1
      content := content
      status := statusPending
      priority := priority
      progress := some 0
      activeForm := some (str "正在" ++ content)
      subtasks := some []
      created_at := some now
      started_at := none
      completed_at := none
      execution_log := some [] }
  (todo, ⟨l.todos ++ [todo]⟩)

/-- `TodoList.modify`: overwrite content and priority of the first id match. -/
def TodoList.modify (l : TodoList) (i : Int) (content priority : Str) :
    Option Todo × TodoList :=
  match findTodo i l.todos with
  | none => (none, l)
  | some _ =>
    let ts := updateTodo i (fun t => { t with content := content, priority := priority }) l.todos
    (findTodo i ts, ⟨ts⟩)

/-- Removal of the first id match (`self.todos.remove(todo)`). -/
def deleteGo (i : Int) : List Todo → Option Todo × List Todo
  | [] => (none, [])
  | t :: ts =>
    if t.id = i then (some t, ts)
    else
      let (r, ts2) := deleteGo i ts
      (r, t :: ts2)

def TodoList.delete (l : TodoList) (i : Int) : Option Todo × TodoList :=
  let (r, ts) := deleteGo i l.todos
  (r, ⟨ts⟩)

/-- One element of the `todos_data` argument of `update_all`. -/
structure BatchEntry where
  content : Str
  status : Option Str
  priority : Option Str
  deriving DecidableEq

/-- `TodoList.update_all`: clears the collection and rebuilds it with ids
1..N; the records carry only the four keys id/content/status/priority. -/
def TodoList.update_all (l : TodoList) (entries : List BatchEntry) :
    List Todo × TodoList :=
  let _ := l
  let todos := (List.enumFrom 1 entries).map fun p =>
    { id := Int.ofNat p.1
      content := p.2.content
      status := p.2.status.getD statusPending
      priority := p.2.priority.getD (str "medium")
      progress := none
      activeForm := none
      subtasks := none
      created_at := none
      started_at := none
      completed_at := none
      execution_log := none : Todo }
  (todos, ⟨todos⟩)

def TodoList.get_all (l : TodoList) : List Todo := l.todos

def TodoList.update_status (l : TodoList) (i : Int) (status : Str) :
    Option Todo × TodoList :=
  match findTodo i l.todos with
  | none => (none, l)
  | some _ =>
    let ts := updateTodo i (fun t => { t with status := status }) l.todos
    (findTodo i ts, ⟨ts⟩)

def TodoList.get_by_status (l : TodoList) (status : Str) : List Todo :=
  l.todos.filter fun t => t.status == status

/-- `log_execution` body: append an entry to the first id match, raising
`KeyError` when that record has no `execution_log` key. -/
def logExecGo (i : Int) (entry : LogEntry) : List Todo → Except PyErr Bool × List Todo
  | [] => (.ok false, [])
  | t :: ts =>
    if t.id = i then
      match t.execution_log with
      | none => (.error (.keyError (str "execution_log")), t :: ts)
      | some lg => (.ok true, { t with execution_log := some (lg ++ [entry]) } :: ts)
    else
      let (r, ts2) := logExecGo i entry ts
      (r, t :: ts2)

def TodoList.log_execution (l : TodoList) (i : Int) (action description : Str)
    (now : Time) : Except PyErr Bool × TodoList :=
  let (r, ts) := logExecGo i ⟨now, action, description⟩ l.todos
  (r, ⟨ts⟩)

/-- Field updates performed in place by the engine operations. -/
def startUpd (now : Time) (t : Todo) : Todo :=
  { t with status := statusInProgress, started_at := some now }

def completeUpd (now : Time) (t : Todo) : Todo :=
  { t with status := statusCompleted, progress := some 100, completed_at := some now }

def progressUpd (p : Int) (t : Todo) : Todo :=
  { t with progress := some (max 0 (min 100 p)) }

def mkSubtasks (i : Int) (cs : List Str) : List Subtask :=
  (List.enumFrom 1 cs).map fun p =>
    Subtask.mk (intToStr i ++ [Char.ofNat 45] ++ natToStr p.1) p.2 false

def subtasksUpd (sts : List Subtask) (t : Todo) : Todo := { t with subtasks := some sts }

/-- `TodoList.start_todo`: reject when any task is `in_progress`; otherwise
mark the first id match `in_progress`, stamp `started_at`, and log a
`started` entry. -/
def TodoList.start_todo (l : TodoList) (i : Int) (now : Time) :
    Except PyErr (Option Todo) × TodoList :=
  if l.todos.countP (fun t => t.status == statusInProgress) ≠ 0 then (.ok none, l)
  else
    match findTodo i l.todos with
    | none => (.ok none, l)
    | some t0 =>
      let ts1 := updateTodo i (startUpd now) l.todos
      let (r, l2) := TodoList.log_execution ⟨ts1⟩ i (str "started")
        (str "开始执行任务: " ++ t0.content) now
      match r with
      | .error e => (.error e, l2)
      | .ok _ => (.ok (findTodo i l2.todos), l2)

/-- `TodoList.break_down_task`: replace the subtasks of the first id match
with freshly numbered incomplete entries and log a `breakdown` entry. -/
def TodoList.break_down_task (l : TodoList) (i : Int) (contents : List Str)
    (now : Time) : Except PyErr (Option Todo) × TodoList :=
  match findTodo i l.todos with
  | none => (.ok none, l)
  | some _ =>
    let ts1 := updateTodo i (subtasksUpd (mkSubtasks i contents)) l.todos
    let (r, l2) := TodoList.log_execution ⟨ts1⟩ i (str "breakdown")
      (str "任务分解为" ++ natToStr contents.length ++ str "个子任务") now
    match r with
    | .error e => (.error e, l2)
    | .ok _ => (.ok (findTodo i l2.todos), l2)

/-- `TodoList.complete_todo`: set status `completed`, progress 100, stamp
`completed_at`, and log a `completed` entry. -/
def TodoList.complete_todo (l : TodoList) (i : Int) (now : Time) :
    Except PyErr (Option Todo) × TodoList :=
  match findTodo i l.todos with
  | none => (.ok none, l)
  | some t0 =>
    let ts1 := updateTodo i (completeUpd now) l.todos
    let (r, l2) := TodoList.log_execution ⟨ts1⟩ i (str "completed")
      (str "任务完成: " ++ t0.content) now
    match r with
    | .error e => (.error e, l2)
    | .ok _ => (.ok (findTodo i l2.todos), l2)

/-- `TodoList.update_progress`: clamp the stored progress to `[0, 100]`,
log a `progress` entry showing the raw old and new values, and run
`complete_todo` when the raw value reaches 100. -/
def TodoList.update_progress (l : TodoList) (i : Int) (p : Int) (now : Time) :
    Except PyErr (Option Todo) × TodoList :=
  match findTodo i l.todos with
  | none => (.ok none, l)
  | some t0 =>
    match t0.progress with
    | none => (.error (.keyError (str "progress")), l)
    | some old =>
      let ts1 := updateTodo i (progressUpd p) l.todos
      let (r, l2) := TodoList.log_execution ⟨ts1⟩ i (str "progress")
        (str "进度更新: " ++ intToStr old ++ str "% -> " ++ intToStr p ++ str "%") now
      match r with
      | .error e => (.error e, l2)
      | .ok _ =>
        if 100 ≤ p then
          let (r2, l3) := TodoList.complete_todo l2 i now
          match r2 with
          | .error e => (.error e, l3)
          | .ok _ => (.ok (findTodo i l3.todos), l3)
        else (.ok (findTodo i l2.todos), l2)

/-- Mark the first subtask with the given id completed, returning its
content together with the rewritten list. -/
def markFirstSubtask (sid : Str) : List Subtask → Option (Str × List Subtask)
  | [] => none
  | st :: sts =>
    if st.id = sid then some (st.content, { st with completed := true } :: sts)
    else (markFirstSubtask sid sts).map fun p => (p.1, st :: p.2)

/-- The in-place rewrite `complete_subtask` performs on the acted-on task:
replace the subtasks and, the subtask list being non-empty, recompute the
progress percentage in binary64. -/
def markUpd (sts2 : List Subtask) (u : Todo) : Todo :=
  if 0 < sts2.length then
    { subtasksUpd sts2 u with
        progress := some (Int.ofNat
          (floatPct (sts2.countP (fun st => st.completed)) sts2.length)) }
  else subtasksUpd sts2 u

/-- Outer scan of `complete_subtask`: at each task whose id matches, read
its `subtasks` key (`KeyError` when absent); when the named subtask is
present mark it, recompute the progress percentage in binary64, and
report the subtask content, the position of the acted-on task and
whether every subtask is now complete; otherwise keep scanning. -/
def markSubtask (i : Int) (sid : Str) (idx : Nat) :
    List Todo → Except PyErr (Option (Str × Nat × Bool)) × List Todo
  | [] => (.ok none, [])
  | t :: ts =>
    if t.id = i then
      match t.subtasks with
      | none => (.error (.keyError (str "subtasks")), t :: ts)
      | some sts =>
        match markFirstSubtask sid sts with
        | some p =>
          (.ok (some (p.1, idx, decide (0 < p.2.length) &&
            (p.2.countP (fun st => st.completed) == p.2.length))), markUpd p.2 t :: ts)
        | none =>
          let (r, ts2) := markSubtask i sid (idx + 1) ts
          (r, t :: ts2)
    else
      let (r, ts2) := markSubtask i sid (idx + 1) ts
      (r, t :: ts2)

/-- `TodoList.complete_subtask`: mark the named subtask of the first task
that has it, log a `subtask_completed` entry, recompute the parent
progress, and run `complete_todo` when all subtasks are complete. -/
def TodoList.complete_subtask (l : TodoList) (i : Int) (sid : Str) (now : Time) :
    Except PyErr (Option Todo) × TodoList :=
  match markSubtask i sid 0 l.todos with
  | (.error e, ts) => (.error e, ⟨ts⟩)
  | (.ok none, ts) => (.ok none, ⟨ts⟩)
  | (.ok (some p), ts1) =>
    let (r, l2) := TodoList.log_execution ⟨ts1⟩ i (str "subtask_completed")
      (str "完成子任务: " ++ p.1) now
    match r with
    | .error e => (.error e, l2)
    | .ok _ =>
      if p.2.2 then
        let (r2, l3) := TodoList.complete_todo l2 i now
        match r2 with
        | .error e => (.error e, l3)
        | .ok _ => (.ok (l3.todos.get? p.2.1), l3)
      else (.ok (l2.todos.get? p.2.1), l2)

def TodoList.get_active_todos (l : TodoList) : List Todo :=
  l.todos.filter fun t => t.status == statusInProgress

def TodoList.get_pending_todos (l : TodoList) : List Todo :=
  l.todos.filter fun t => t.status == statusPending

/-- Number of `in_progress` tasks; the single-active-task invariant is
`activeCount l ≤ 1`. -/
def activeCount (l : TodoList) : Nat :=
  l.todos.countP fun t => t.status == statusInProgress

/-! ### Stream function detector (`src/core/chat_handler.py`, class
`StreamFunctionDetector`) -/

structure StreamFunctionDetector where
  buffer : Str
  in_function_block : Bool
  start_tag_found : Bool
  clean_content : Str
  function_hint_shown : Bool
  deriving DecidableEq

def StreamFunctionDetector.reset : StreamFunctionDetector := ⟨[], false, false, [], false⟩

def startMarker : Str := str "<function_calls>"

def endMarker : Str := str "</function_calls>"

def hintStr : Str := str "\n🔧 执行中..."

/-- The `re.search(r"<function_calls>(.*?)</function_calls>", buffer, re.DOTALL)`
match, whole-span group: from the first opening marker to the first closing
marker that starts at or after the end of that opening marker. -/
def extractFunctionBlock (s : Str) : Option Str :=
  match firstIdx startMarker s with
  | none => none
  | some i =>
    match firstIdx endMarker ((s.drop i).drop startMarker.length) with
    | none => none
    | some j => some ((s.drop i).take (startMarker.length + j + endMarker.length))

/-- `feed_chunk`: returns
`(should_stop_generation, extracted_function_call, clean_chunk_for_display, new state)`. -/
def StreamFunctionDetector.feed_chunk (d : StreamFunctionDetector) (chunk : Str) :
    Bool × Option Str × Str × StreamFunctionDetector :=
  let buffer := d.buffer ++ chunk
  if !d.start_tag_found then
    if containsStr buffer startMarker then
      let d1 : StreamFunctionDetector :=
        { d with buffer := buffer, start_tag_found := true, in_function_block := true }
      let clean0 :=
        match firstIdx startMarker chunk with
        | some i => chunk.take i
        | none => []
      let (clean1, d2) :=
        if !d1.function_hint_shown then
          (clean0 ++ hintStr, { d1 with function_hint_shown := true })
        else (clean0, d1)
      if d2.in_function_block && containsStr buffer endMarker then
        match extractFunctionBlock buffer with
        | some fc => (true, some fc, [], d2)
        | none => (false, none, clean1, d2)
      else (false, none, clean1, d2)
    else
      let d2 : StreamFunctionDetector :=
        { d with buffer := if 20 < buffer.length then takeRight 20 buffer else buffer }
      (false, none, chunk, d2)
  else
    let d1 : StreamFunctionDetector := { d with buffer := buffer }
    if d1.in_function_block && containsStr buffer endMarker then
      match extractFunctionBlock buffer with
      | some fc => (true, some fc, [], d1)
      | none => (false, none, [], d1)
    else (false, none, [], d1)

/-- Feed a chunk sequence, requiring at every step that no stop is reported
and that the retained buffer stays within 20 characters. -/
def feedAllQuiet (d : StreamFunctionDetector) : List Str → Bool
  | [] => true
  | c :: cs =>
    match d.feed_chunk c with
    | (stop, _, _, d2) => !stop && decide (d2.buffer.length ≤ 20) && feedAllQuiet d2 cs

/-! ### Session manager (`src/core/session_manager.py`) -/

structure Message where
  role : Str
  content : Str
  timestamp : Time
  deriving DecidableEq

structure SessionState where
  current_session_id : Option Str
  current_context : List Message
  last_activity_time : Time
  deriving DecidableEq

/-- One persisted session JSON document. -/
structure SessionDoc where
  session_id : Str
  created_at : Time
  last_activity : Time
  messages : List Message
  deriving DecidableEq

def padZeros3 (s : Str) : Str := List.replicate (3 - s.length) (Char.ofNat 48) ++ s

/-- `_generate_session_id`: `session_{count:03d}` with count = number of
existing session files of the day plus one. -/
def generate_session_id (existingCount : Nat) : Str :=
  str "session_" ++ padZeros3 (natToStr (existingCount + 1))

/-- `create_new_session`: allocate an id, reset the in-memory buffer and the
activity clock, and write an initial document. -/
def SessionManager.create_new_session (existingCount : Nat) (now : Time) :
    SessionState × SessionDoc :=
  let sid := generate_session_id existingCount
  (⟨some sid, [], now⟩, ⟨sid, now, now, []⟩)

/-- `save_current_session`: the document written to the current session
file; `none` when no session is current.  Note both `created_at` and
`last_activity` are stamped with `datetime.now()` at save time. -/
def SessionManager.save_current_session (st : SessionState) (now : Time) :
    Option SessionDoc :=
  match st.current_session_id with
  | none => none
  | some sid => some ⟨sid, now, now, st.current_context⟩

/-- `add_message`: append a timestamped message and update the activity
clock (the subsequent auto-save is `save_current_session`). -/
def SessionManager.add_message (st : SessionState) (role content : Str) (now : Time) :
    SessionState :=
  { st with current_context := st.current_context ++ [⟨role, content, now⟩],
            last_activity_time := now }

def SessionManager.get_current_context (st : SessionState) : List (Str × Str) :=
  st.current_context.map fun m => (m.role, m.content)

/-! ### Python values and the smart parameter parser
(`src/core/function_registry.py`)

Python values flowing through parameter parsing are modelled by
`PyValue`.  A Python float is kept as the exact decimal value
`num / den` produced by the literal that built it (`den` a power of
ten); distinct literals denoting the same double are therefore kept
distinct, which is irrelevant to every statement proved here.
`jsonLoads` models `json.loads` on its standard subset (objects,
arrays, strings with the usual escapes, numbers, `true`/`false`/`null`);
the nonstandard `NaN`/`Infinity` extensions and lone-surrogate escapes
are outside the model and outside every verified statement. -/

structure DecFloat where
  num : Int
  den : Nat
  deriving DecidableEq

inductive PyValue where
  | pyStr (s : Str)
  | pyInt (n : Int)
  | pyFloat (f : DecFloat)
  | pyBool (b : Bool)
  | pyNone
  | pyList (xs : List PyValue)
  | pyDict (xs : List (Str × PyValue))

def jsonLb : Char := Char.ofNat 123

def jsonRb : Char := Char.ofNat 125

def isJsonWs (c : Char) : Bool := c == ' ' || c == '\t' || c == '\n' || c == '\r'

def skipWs (s : Str) : Str := s.dropWhile isJsonWs

def digitsToNat (s : Str) : Nat := s.foldl (fun a c => 10 * a + (c.toNat - 48)) 0

def hexVal (c : Char) : Option Nat :=
  if c.isDigit then some (c.toNat - 48)
  else if 'a' ≤ c ∧ c ≤ 'f' then some (c.toNat - 87)
  else if 'A' ≤ c ∧ c ≤ 'F' then some (c.toNat - 55)
  else none

/-- JSON string body after the opening quote; strict mode rejects raw
control characters. -/
def parseJsonString : Str → Option (Str × Str)
  | [] => none
  | c :: cs =>
    if c == '"' then some ([], cs)
    else if c == '\\' then
      match cs with
      | [] => none
      | e :: cs2 =>
        if e == 'u' then
          match cs2 with
          | h1 :: h2 :: h3 :: h4 :: cs3 =>
            match hexVal h1, hexVal h2, hexVal h3, hexVal h4 with
            | some a, some b, some c2, some d =>
              let code := ((a * 16 + b) * 16 + c2) * 16 + d
              if 0xD800 ≤ code ∧ code ≤ 0xDFFF then none
              else (parseJsonString cs3).map fun p => (Char.ofNat code :: p.1, p.2)
            | _, _, _, _ => none
          | _ => none
        else
          let decoded : Option Char :=
            if e == '"' then some '"' else if e == '\\' then some '\\'
            else if e == '/' then some '/' else if e == 'b' then some '\x08'
            else if e == 'f' then some '\x0c' else if e == 'n' then some '\n'
            else if e == 'r' then some '\r' else if e == 't' then some '\t'
            else none
          match decoded with
          | none => none
          | some ch => (parseJsonString cs2).map fun p => (ch :: p.1, p.2)
    else if c.toNat < 0x20 then none
    else (parseJsonString cs).map fun p => (c :: p.1, p.2)

/-- Optional exponent suffix of a JSON number; `none` is a malformed
exponent, `some (none, s)` is no exponent. -/
def parseExpOpt (s : Str) : Option (Option Int × Str) :=
  match s with
  | c :: cs =>
    if c == 'e' || c == 'E' then
      let p : Int × Str :=
        match cs with
        | d :: ds => if d == '+' then (1, ds) else if d == '-' then (-1, ds) else (1, cs)
        | [] => (1, cs)
      let es := p.2.takeWhile Char.isDigit
      let rest := p.2.dropWhile Char.isDigit
      if es.isEmpty then none else some (some (p.1 * Int.ofNat (digitsToNat es)), rest)
    else some (none, s)
  | [] => some (none, s)

def mkJsonNumber (neg : Bool) (intDs fracDs : Str) (exp : Int) (isFloat : Bool) :
    PyValue :=
  let mag : Nat := digitsToNat (intDs ++ fracDs)
  let sgn : Int := if neg then -1 else 1
  let e10 : Int := exp - Int.ofNat fracDs.length
  if isFloat then
    if 0 ≤ e10 then .pyFloat ⟨sgn * Int.ofNat mag * Int.ofNat (10 ^ e10.toNat), 1⟩
    else .pyFloat ⟨sgn * Int.ofNat mag, 10 ^ (-e10).toNat⟩
  else .pyInt (sgn * Int.ofNat mag)

/-- JSON number starting at `s` (already known not to be ws). -/
def parseJsonNumber (s : Str) : Option (PyValue × Str) :=
  let p : Bool × Str :=
    match s with
    | c :: cs => if c == '-' then (true, cs) else (false, s)
    | [] => (false, s)
  let neg := p.1
  let s1 := p.2
  let ds := s1.takeWhile Char.isDigit
  let s2 := s1.dropWhile Char.isDigit
  if ds.isEmpty then none
  else if 1 < ds.length ∧ ds.head? = some '0' then none
  else
    match s2 with
    | '.' :: s3 =>
      let fs := s3.takeWhile Char.isDigit
      let s4 := s3.dropWhile Char.isDigit
      if fs.isEmpty then none
      else
        match parseExpOpt s4 with
        | none => none
        | some (e?, s5) => some (mkJsonNumber neg ds fs (e?.getD 0) true, s5)
    | _ =>
      match parseExpOpt s2 with
      | none => none
      | some (none, s5) => some (mkJsonNumber neg ds [] 0 false, s5)
      | some (some e, s5) => some (mkJsonNumber neg ds [] e true, s5)

/-- Collapse a duplicate key the way a Python dict does: the first
occurrence keeps its position, the last value wins. -/
def dictCombine (k : Str) (v : PyValue) (rest : List (Str × PyValue)) :
    List (Str × PyValue) :=
  if rest.any (fun kv => kv.1 == k) then
    (k, (rest.lookup k).getD v) :: rest.filter (fun kv => !(kv.1 == k))
  else (k, v) :: rest

inductive JMode where
  | value
  | items
  | members

inductive JOut where
  | val (v : PyValue)
  | items (vs : List PyValue)
  | members (kvs : List (Str × PyValue))

/-- Recursive descent core of `json.loads`, fuel-indexed (structural on
the fuel, so concrete runs reduce in the kernel). -/
def parseJsonCore : Nat → JMode → Str → Option (JOut × Str)
  | 0, _, _ => none
  | fuel + 1, .value, s =>
    match skipWs s with
    | [] => none
    | c :: cs =>
      if c == jsonLb then
        match skipWs cs with
        | d :: ds =>
          if d == jsonRb then some (.val (.pyDict []), ds)
          else
            match parseJsonCore fuel .members (d :: ds) with
            | some (.members kvs, rest) => some (.val (.pyDict kvs), rest)
            | _ => none
        | [] => none
      else if c == '[' then
        match skipWs cs with
        | d :: ds =>
          if d == ']' then some (.val (.pyList []), ds)
          else
            match parseJsonCore fuel .items (d :: ds) with
            | some (.items vs, rest) => some (.val (.pyList vs), rest)
            | _ => none
        | [] => none
      else if c == '"' then
        (parseJsonString cs).map fun p => (.val (.pyStr p.1), p.2)
      else if (str "true").isPrefixOf (c :: cs) then
        some (.val (.pyBool true), (c :: cs).drop 4)
      else if (str "false").isPrefixOf (c :: cs) then
        some (.val (.pyBool false), (c :: cs).drop 5)
      else if (str "null").isPrefixOf (c :: cs) then
        some (.val .pyNone, (c :: cs).drop 4)
      else
        (parseJsonNumber (c :: cs)).map fun p => (.val p.1, p.2)
  | fuel + 1, .items, s =>
    match parseJsonCore fuel .value s with
    | some (.val v, s2) =>
      (match skipWs s2 with
       | c :: s3 =>
         if c == ',' then
           match parseJsonCore fuel .items s3 with
           | some (.items vs, s4) => some (.items (v :: vs), s4)
           | _ => none
         else if c == ']' then some (.items [v], s3)
         else none
       | [] => none)
    | _ => none
  | fuel + 1, .members, s =>
    match skipWs s with
    | c :: cs =>
      if c == '"' then
        match parseJsonString cs with
        | none => none
        | some (k, s2) =>
          match skipWs s2 with
          | d :: s3 =>
            if d == ':' then
              match parseJsonCore fuel .value s3 with
              | some (.val v, s4) =>
                (match skipWs s4 with
                 | e :: s5 =>
                   if e == ',' then
                     match parseJsonCore fuel .members s5 with
                     | some (.members kvs, s6) => some (.members (dictCombine k v kvs), s6)
                     | _ => none
                   else if e == jsonRb then some (.members [(k, v)], s5)
                   else none
                 | [] => none)
              | _ => none
            else none
          | [] => none
      else none
    | [] => none

/-- Model of `json.loads` (strict mode): the parsed document, `none` on
a `JSONDecodeError`. -/
def jsonLoads (s : Str) : Option PyValue :=
  match parseJsonCore (s.length + 1) .value s with
  | some (.val v, rest) => if (skipWs rest).isEmpty then some v else none
  | _ => none

/-- The digit test `value.replace("-", "").replace(".", "").isdigit()`. -/
def isDigitGuard (s : Str) : Bool :=
  let r := s.filter fun c => !(c == '-' || c == '.')
  !r.isEmpty && r.all Char.isDigit

/-- Python `int(s)` on an already stripped string. -/
def parsePyInt (s : Str) : Option Int :=
  let p : Int × Str :=
    match s with
    | c :: cs => if c == '-' then (-1, cs) else if c == '+' then (1, cs) else (1, s)
    | [] => (1, s)
  if p.2.isEmpty then none
  else if p.2.all Char.isDigit then some (p.1 * Int.ofNat (digitsToNat p.2)) else none

/-- Python `float(s)` on an already stripped string, restricted to the
plain decimal forms (sign, digits, at most one dot); the exponent and
`inf`/`nan` forms never pass the digit guard that precedes every use. -/
def parsePyFloat (s : Str) : Option DecFloat :=
  let p : Int × Str :=
    match s with
    | c :: cs => if c == '-' then (-1, cs) else if c == '+' then (1, cs) else (1, s)
    | [] => (1, s)
  match firstIdx (str ".") p.2 with
  | none =>
    if !p.2.isEmpty && p.2.all Char.isDigit then
      some ⟨p.1 * Int.ofNat (digitsToNat p.2), 1⟩
    else none
  | some i =>
    let intPart := p.2.take i
    let frac := p.2.drop (i + 1)
    if frac.any (fun c => c == '.') then none
    else if intPart.all Char.isDigit && frac.all Char.isDigit
        && !(intPart.isEmpty && frac.isEmpty) then
      some ⟨p.1 * Int.ofNat (digitsToNat (intPart ++ frac)), 10 ^ frac.length⟩
    else none

/-- `SmartParameterParser.parse_value`. -/
def SmartParameterParser.parse_value (v : PyValue) : PyValue :=
  match v with
  | .pyStr s0 =>
    let s := stripStr s0
    if s.isEmpty then .pyStr [] else
    let jsonShaped :=
      (s.head? == some jsonLb && s.getLast? == some jsonRb) ||
      (s.head? == some '[' && s.getLast? == some ']')
    match (if jsonShaped then jsonLoads s else none) with
    | some parsed => parsed
    | none =>
      if lowerStr s == str "true" || lowerStr s == str "false" then
        .pyBool (lowerStr s == str "true")
      else if isDigitGuard s then
        if !containsStr s (str ".") then
          match parsePyInt s with
          | some n => .pyInt n
          | none => .pyStr s
        else
          match parsePyFloat s with
          | some f => .pyFloat f
          | none => .pyStr s
      else .pyStr s
  | v => v

/-! ### Unified function registry (`src/core/function_registry.py`) -/

abbrev Kwargs := List (Str × PyValue)

/-- A registered handler: Python keyword arguments in, either a returned
value or a raised exception (carried as its `str(e)` text) out. -/
abbrev Handler := Kwargs → Except Str PyValue

structure FunctionResult where
  success : Bool
  content : Str
  function_name : Str := []
  parameters : Option Kwargs := none
  error : Str := []
  needs_confirmation : Bool := false

/-- Structural size of a `PyValue`, used only as recursion fuel for the
container rendering below. -/
def pySize : PyValue → Nat
  | .pyList xs => 1 + ((xs.attach.map fun x => pySize x.1).foldl (· + ·) 0)
  | .pyDict kvs => 1 + ((kvs.attach.map fun kv => pySize kv.1.2).foldl (· + ·) 0)
  | _ => 1
  decreasing_by
    · have h := List.sizeOf_lt_of_mem x.2
      simp only [PyValue.pyList.sizeOf_spec]
      omega
    · obtain ⟨⟨a, b⟩, hm⟩ := kv
      have h := List.sizeOf_lt_of_mem hm
      simp only [Prod.mk.sizeOf_spec] at h
      simp only [PyValue.pyDict.sizeOf_spec]
      omega

def floatToStr (f : DecFloat) : Str :=
  let sgn : Str := if f.num < 0 then str "-" else []
  let mag := f.num.natAbs
  if f.den ≤ 1 then sgn ++ natToStr mag ++ str ".0"
  else
    let ip := mag / f.den
    let fp := mag % f.den
    let fpDigits := natToStr (f.den + fp)
    sgn ++ natToStr ip ++ str "." ++ fpDigits.drop 1

/-- Python `repr` of a value, approximated for the container cases (the
claims under verification never stringify containers or floats). -/
def reprPy : Nat → PyValue → Str
  | 0, _ => []
  | fuel + 1, v =>
    match v with
    | .pyStr s => [Char.ofNat 39] ++ s ++ [Char.ofNat 39]
    | .pyInt n => intToStr n
    | .pyBool b => str (if b then "True" else "False")
    | .pyNone => str "None"
    | .pyFloat f => floatToStr f
    | .pyList xs =>
      [Char.ofNat 91] ++ List.intercalate (str ", ") (xs.map (reprPy fuel)) ++
        [Char.ofNat 93]
    | .pyDict kvs =>
      [jsonLb] ++
        List.intercalate (str ", ")
          (kvs.map fun kv => reprPy fuel (.pyStr kv.1) ++ str ": " ++ reprPy fuel kv.2) ++
        [jsonRb]

/-- Python `str(result)`. -/
def pyToString (v : PyValue) : Str :=
  match v with
  | .pyStr s => s
  | .pyInt n => intToStr n
  | .pyBool b => str (if b then "True" else "False")
  | .pyNone => str "None"
  | .pyFloat f => floatToStr f
  | v => reprPy (pySize v) v

def CONFIRM_SENTINEL : Str := str "需要用户输入Y确认"

/-- `UnifiedFunctionRegistry.call`: name lookup, the failure boundary
around the handler, and the confirmation-sentinel special case. -/
def UnifiedFunctionRegistry.call (tbl : List (Str × Handler)) (name : Str)
    (kwargs : Kwargs) : FunctionResult :=
  match tbl.lookup name with
  | none =>
    { success := false
      content := []
      function_name := name
      error := str "Function \x27" ++ name ++ str "\x27 not found" }
  | some f =>
    match f kwargs with
    | .ok result =>
      match result with
      | .pyStr s =>
        if containsStr s CONFIRM_SENTINEL then
          { success := false
            content := s
            function_name := name
            parameters := some kwargs
            needs_confirmation := true }
        else
          { success := true, content := s, function_name := name,
            parameters := some kwargs }
      | v =>
        { success := true, content := pyToString v, function_name := name,
          parameters := some kwargs }
    | .error e =>
      { success := false, content := [], function_name := name,
        parameters := some kwargs, error := e }

/-- All matches of `re.findall(open + r"(.*?)" + close, s, re.DOTALL)`:
non-overlapping, scanned left to right, each group running to the first
closing pattern after its opening pattern.  (Regex backtracking past a
closer-less opener is not modelled; no opener in the verified inputs
lacks its closer.) -/
def findBetweenAll (openPat closePat : Str) : Nat → Str → List Str
  | 0, _ => []
  | fuel + 1, s =>
    match firstIdx openPat s with
    | none => []
    | some i =>
      let afterOpen := s.drop (i + openPat.length)
      match firstIdx closePat afterOpen with
      | none => []
      | some j =>
        afterOpen.take j ::
          findBetweenAll openPat closePat fuel (afterOpen.drop (j + closePat.length))

/-- All matches of a two-group pattern `p1(.*?)p2(.*?)p3` under the same
convention. -/
def findTwoGroupAll (p1 p2 p3 : Str) : Nat → Str → List (Str × Str)
  | 0, _ => []
  | fuel + 1, s =>
    match firstIdx p1 s with
    | none => []
    | some i =>
      let a := s.drop (i + p1.length)
      match firstIdx p2 a with
      | none => []
      | some j =>
        let b := a.drop (j + p2.length)
        match firstIdx p3 b with
        | none => []
        | some k2 =>
          (a.take j, b.take k2) ::
            findTwoGroupAll p1 p2 p3 fuel (b.drop (k2 + p3.length))

/-- `SmartParameterParser.parse_xml_parameters`. -/
def SmartParameterParser.parse_xml_parameters (s : Str) : Kwargs :=
  (findTwoGroupAll (str "<parameter name=\"") (str "\">") (str "</parameter>")
      s.length s).map fun p => (p.1, SmartParameterParser.parse_value (.pyStr p.2))

/-- `UnifiedFunctionRegistry.parse_and_execute`. -/
def UnifiedFunctionRegistry.parse_and_execute (tbl : List (Str × Handler))
    (s : Str) : List FunctionResult :=
  ((findBetweenAll startMarker endMarker s.length s).map fun block =>
    (findTwoGroupAll (str "<invoke name=\"") (str "\">") (str "</invoke>")
        block.length block).map fun p =>
      UnifiedFunctionRegistry.call tbl p.1
        (SmartParameterParser.parse_xml_parameters p.2)).flatten

def format_result_xml (content : Str) (success : Bool) : Str :=
  let tag := if success then str "success" else str "failed"
  str "<" ++ tag ++ str ">" ++ content ++ str "</" ++ tag ++ str ">"

/-- `UnifiedFunctionRegistry.format_results`. -/
def UnifiedFunctionRegistry.format_results (results : List FunctionResult) : Str :=
  if results.isEmpty then [] else
  str "<function_response>" ++
    (results.map fun r =>
      if r.needs_confirmation then format_result_xml r.content false
      else if r.success then format_result_xml r.content true
      else format_result_xml (if r.error.isEmpty then str "未知错误" else r.error)
        false).flatten ++
    str "</function_response>"

/-! ### Conversation turn driver (`src/core/chat_handler.py`,
`AIGirlfriendChatHandler.process_conversation_turn`)

The hosted model is the external boundary: each model call is an
arbitrary chunk sequence supplied by an oracle, indexed by the number of
model calls made so far within the turn recursion.  Prompt assembly and
the operations log have no effect on the returned text or the session
and are omitted; handlers are the pure `Handler` boundary above. -/

def MAX_CONVERSATION_DEPTH : Nat := 5

def depthLimitError : Str := str "错误: 达到最大对话深度限制"

/-- `get_response_stream` run over the chunks of one model call: the
accumulated full text, the has-function-calls flag and the extracted
block.  Generation is cut off as soon as the detector reports a stop
with an extracted call. -/
def getResponseStreamGo (d : StreamFunctionDetector) (acc : Str) :
    List Str → Str × Bool × Option Str
  | [] => (acc, false, none)
  | c :: cs =>
    let acc2 := acc ++ c
    match d.feed_chunk c with
    | (true, some fc, _, _) => (acc2, true, some fc)
    | (_, _, _, d2) => getResponseStreamGo d2 acc2 cs

def get_response_stream (chunks : List Str) : Str × Bool × Option Str :=
  getResponseStreamGo .reset [] chunks

/-- One conversation turn: depth guard, model call, assistant-message
append, function execution, confirmation gating, recursion.  Returns the
final response text, the session state, and the number of model calls
made. -/
def process_conversation_turn (tbl : List (Str × Handler))
    (oracle : Nat → List Str) (times : Nat → Time) (depth : Nat)
    (st : SessionState) (k : Nat) : Str × SessionState × Nat :=
  if MAX_CONVERSATION_DEPTH ≤ depth then (depthLimitError, st, 0)
  else
    let r := get_response_stream (oracle k)
    let content := r.1
    let hasFc := r.2.1
    let st1 := SessionManager.add_message st (str "assistant") content (times k)
    if hasFc then
      let results := UnifiedFunctionRegistry.parse_and_execute tbl content
      if results.any (fun fr => fr.needs_confirmation) then
        let st2 := SessionManager.add_message st1 (str "assistant")
          (UnifiedFunctionRegistry.format_results results) (times k)
        (content, st2, 1)
      else
        let st2 := SessionManager.add_message st1 (str "assistant")
          (UnifiedFunctionRegistry.format_results results) (times k)
        let rec2 := process_conversation_turn tbl oracle times (depth + 1) st2 (k + 1)
        (rec2.1, rec2.2.1, rec2.2.2 + 1)
    else (content, st1, 1)
  termination_by MAX_CONVERSATION_DEPTH - depth

/-! ### Helper lemmas about the engine traversals -/

def isActiveT (t : Todo) : Bool := t.status == statusInProgress

theorem activeCount_eq (l : TodoList) : activeCount l = l.todos.countP isActiveT := rfl

theorem findTodo_mem {i : Int} {ts : List Todo} {t : Todo}
    (h : findTodo i ts = some t) : t ∈ ts := by
  induction ts with
  | nil => simp [findTodo] at h
  | cons u us ih =>
    by_cases hu : u.id = i
    · simp [findTodo, hu] at h
      simp [h]
    · simp [findTodo, hu] at h
      exact List.mem_cons_of_mem _ (ih h)

theorem findTodo_id {i : Int} {ts : List Todo} {t : Todo}
    (h : findTodo i ts = some t) : t.id = i := by
  induction ts with
  | nil => simp [findTodo] at h
  | cons u us ih =>
    by_cases hu : u.id = i
    · simp [findTodo, hu] at h
      subst h
      exact hu
    · simp [findTodo, hu] at h
      exact ih h

theorem findTodo_updateTodo (i : Int) (f : Todo → Todo) (ts : List Todo)
    (hid : ∀ t, (f t).id = t.id) :
    findTodo i (updateTodo i f ts) = (findTodo i ts).map f := by
  induction ts with
  | nil => simp [findTodo, updateTodo]
  | cons u us ih =>
    by_cases hu : u.id = i
    · simp [findTodo, updateTodo, hu, hid]
    · simp [findTodo, updateTodo, hu, ih]

theorem updateTodo_updateTodo (i : Int) (f g : Todo → Todo) (ts : List Todo)
    (hid : ∀ t, (f t).id = t.id) :
    updateTodo i g (updateTodo i f ts) = updateTodo i (fun t => g (f t)) ts := by
  induction ts with
  | nil => simp [updateTodo]
  | cons u us ih =>
    by_cases hu : u.id = i
    · simp [updateTodo, hu, hid]
    · simp [updateTodo, hu, ih]

theorem countP_updateTodo_pres (p : Todo → Bool) (i : Int) (f : Todo → Todo)
    (ts : List Todo) (h : ∀ t, p (f t) = p t) :
    (updateTodo i f ts).countP p = ts.countP p := by
  induction ts with
  | nil => simp [updateTodo]
  | cons u us ih =>
    by_cases hu : u.id = i
    · simp [updateTodo, hu, List.countP_cons, h]
    · simp [updateTodo, hu, List.countP_cons, ih]

theorem countP_updateTodo_drop (p : Todo → Bool) (i : Int) (f : Todo → Todo)
    (ts : List Todo) (h : ∀ t, p (f t) = false) :
    (updateTodo i f ts).countP p ≤ ts.countP p := by
  induction ts with
  | nil => simp [updateTodo]
  | cons u us ih =>
    by_cases hu : u.id = i
    · simp [updateTodo, hu, List.countP_cons, h]
    · simp [updateTodo, hu, List.countP_cons]
      omega

theorem countP_updateTodo_le_add_one (p : Todo → Bool) (i : Int) (f : Todo → Todo)
    (ts : List Todo) :
    (updateTodo i f ts).countP p ≤ ts.countP p + 1 := by
  induction ts with
  | nil => simp [updateTodo]
  | cons u us ih =>
    by_cases hu : u.id = i
    · simp [updateTodo, hu, List.countP_cons]
      split <;> split <;> omega
    · simp [updateTodo, hu, List.countP_cons]
      omega

theorem logExecGo_countP (i : Int) (e : LogEntry) (ts : List Todo) :
    ((logExecGo i e ts).2).countP isActiveT = ts.countP isActiveT := by
  induction ts with
  | nil => simp [logExecGo]
  | cons u us ih =>
    by_cases hu : u.id = i
    · cases hl : u.execution_log <;>
        simp [logExecGo, hu, hl, List.countP_cons, isActiveT]
    · simp [logExecGo, hu, List.countP_cons, ih]

/-- The function `log_execution` applies to the record it finds. -/
def appendLog (e : LogEntry) (u : Todo) : Todo :=
  { u with execution_log := u.execution_log.map (fun v => v ++ [e]) }

theorem logExecGo_ok (i : Int) (e : LogEntry) (ts : List Todo) (t : Todo)
    (lg : List LogEntry) (hf : findTodo i ts = some t)
    (hl : t.execution_log = some lg) :
    logExecGo i e ts = (.ok true, updateTodo i (appendLog e) ts) := by
  induction ts with
  | nil => simp [findTodo] at hf
  | cons u us ih =>
    by_cases hu : u.id = i
    · simp [findTodo, hu] at hf
      subst hf
      simp [logExecGo, updateTodo, hu, hl, appendLog]
    · simp [findTodo, hu] at hf
      simp [logExecGo, updateTodo, hu, ih hf]

theorem logExecGo_err (i : Int) (e : LogEntry) (ts : List Todo) (t : Todo)
    (hf : findTodo i ts = some t) (hl : t.execution_log = none) :
    logExecGo i e ts = (.error (.keyError (str "execution_log")), ts) := by
  induction ts with
  | nil => simp [findTodo] at hf
  | cons u us ih =>
    by_cases hu : u.id = i
    · simp [findTodo, hu] at hf
      subst hf
      simp [logExecGo, hu, hl]
    · simp [findTodo, hu] at hf
      simp [logExecGo, hu, ih hf]

theorem deleteGo_sublist (i : Int) (ts : List Todo) :
    List.Sublist (deleteGo i ts).2 ts := by
  induction ts with
  | nil => simp [deleteGo]
  | cons u us ih =>
    by_cases hu : u.id = i
    · simp [deleteGo, hu]
    · simp [deleteGo, hu]
      exact ih

theorem markSubtask_countP (i : Int) (sid : Str) (k : Nat) (ts : List Todo) :
    ((markSubtask i sid k ts).2).countP isActiveT = ts.countP isActiveT := by
  induction ts generalizing k with
  | nil => simp [markSubtask]
  | cons u us ih =>
    by_cases hu : u.id = i
    · cases hs : u.subtasks with
      | none => simp [markSubtask, hu, hs]
      | some sts =>
        cases hm : markFirstSubtask sid sts with
        | none => simp [markSubtask, hu, hs, hm, List.countP_cons, ih]
        | some p =>
          by_cases htot : 0 < p.2.length <;>
            simp [markSubtask, hu, hs, hm, htot, List.countP_cons, isActiveT,
              subtasksUpd, markUpd]
    · simp [markSubtask, hu, List.countP_cons, ih]

/-! ### Invariant preservation of the engine operations -/

theorem activeCount_add (l : TodoList) (c pr : Str) (now : Time) :
    activeCount (l.add c pr now).2 = activeCount l := by
  simp [TodoList.add, activeCount, List.countP_append, List.countP_cons,
    statusPending, statusInProgress, str]

theorem activeCount_modify (l : TodoList) (i : Int) (c pr : Str) :
    activeCount (l.modify i c pr).2 = activeCount l := by
  unfold TodoList.modify
  cases hf : findTodo i l.todos with
  | none => rfl
  | some t =>
    simp [activeCount_eq]
    exact countP_updateTodo_pres _ _ _ _ (fun t => rfl)

theorem activeCount_delete (l : TodoList) (i : Int) :
    activeCount (l.delete i).2 ≤ activeCount l := by
  simp [TodoList.delete, activeCount_eq]
  exact (deleteGo_sublist i l.todos).countP_le _

theorem activeCount_log_execution (l : TodoList) (i : Int) (a d : Str) (now : Time) :
    activeCount (l.log_execution i a d now).2 = activeCount l := by
  simp [TodoList.log_execution, activeCount_eq]
  exact logExecGo_countP _ _ _


theorem log_execution_snd (l : TodoList) (i : Int) (a d : Str) (now : Time) :
    (l.log_execution i a d now).2 = ⟨(logExecGo i ⟨now, a, d⟩ l.todos).2⟩ := rfl

theorem activeCount_break_down (l : TodoList) (i : Int) (cs : List Str) (now : Time) :
    activeCount (l.break_down_task i cs now).2 = activeCount l := by
  unfold TodoList.break_down_task
  cases hf : findTodo i l.todos with
  | none => rfl
  | some t =>
    simp only []
    rcases hE : TodoList.log_execution ⟨updateTodo i (subtasksUpd (mkSubtasks i cs)) l.todos⟩ i
        (str "breakdown") (str "任务分解为" ++ natToStr cs.length ++ str "个子任务") now
      with ⟨r, l2⟩
    have hsnd : activeCount l2 = activeCount l := by
      have h1 := congrArg Prod.snd hE
      simp only at h1
      rw [← h1, activeCount_log_execution]
      rw [activeCount_eq, activeCount_eq]
      exact countP_updateTodo_pres _ _ _ _ (fun t => rfl)
    cases r <;> simpa using hsnd

theorem activeCount_complete (l : TodoList) (i : Int) (now : Time) :
    activeCount (l.complete_todo i now).2 ≤ activeCount l := by
  unfold TodoList.complete_todo
  cases hf : findTodo i l.todos with
  | none => exact le_refl _
  | some t =>
    simp only []
    rcases hE : TodoList.log_execution ⟨updateTodo i (completeUpd now) l.todos⟩ i
        (str "completed") (str "任务完成: " ++ t.content) now with ⟨r, l2⟩
    have hsnd : activeCount l2 ≤ activeCount l := by
      have h1 := congrArg Prod.snd hE
      simp only at h1
      rw [← h1, activeCount_log_execution]
      rw [activeCount_eq, activeCount_eq]
      exact countP_updateTodo_drop _ _ _ _
        (fun t => by simp [isActiveT, completeUpd, statusCompleted, statusInProgress, str])
    cases r <;> simpa using hsnd

theorem activeCount_update_progress (l : TodoList) (i : Int) (p : Int) (now : Time) :
    activeCount (l.update_progress i p now).2 ≤ activeCount l := by
  unfold TodoList.update_progress
  cases hf : findTodo i l.todos with
  | none => exact le_refl _
  | some t =>
    simp only []
    cases hp : t.progress with
    | none => exact le_refl _
    | some old =>
      simp only []
      rcases hE : TodoList.log_execution ⟨updateTodo i (progressUpd p) l.todos⟩ i
          (str "progress")
          (str "进度更新: " ++ intToStr old ++ str "% -> " ++ intToStr p ++ str "%") now
        with ⟨r, l2⟩
      have hsnd : activeCount l2 ≤ activeCount l := by
        have h1 := congrArg Prod.snd hE
        simp only at h1
        rw [← h1, activeCount_log_execution]
        rw [activeCount_eq, activeCount_eq]
        exact le_of_eq (countP_updateTodo_pres _ _ _ _ (fun t => rfl))
      cases r with
      | error e => simpa using hsnd
      | ok b =>
        by_cases hge : (100 : Int) ≤ p
        · simp only [hge, if_true]
          rcases hE2 : TodoList.complete_todo l2 i now with ⟨r2, l3⟩
          have hsnd2 : activeCount l3 ≤ activeCount l2 := by
            have h2 := congrArg Prod.snd hE2
            simp only at h2
            rw [← h2]
            exact activeCount_complete l2 i now
          cases r2 <;> simpa using le_trans hsnd2 hsnd
        · simp only [hge, if_false]
          simpa using hsnd

theorem activeCount_complete_subtask (l : TodoList) (i : Int) (sid : Str) (now : Time) :
    activeCount (l.complete_subtask i sid now).2 ≤ activeCount l := by
  unfold TodoList.complete_subtask
  rcases hM : markSubtask i sid 0 l.todos with ⟨rm, ts1⟩
  have hts1 : activeCount (⟨ts1⟩ : TodoList) = activeCount l := by
    have h1 := congrArg Prod.snd hM
    simp only at h1
    rw [activeCount_eq, activeCount_eq, ← h1]
    exact markSubtask_countP _ _ _ _
  cases rm with
  | error e => simpa using le_of_eq hts1
  | ok o =>
    cases o with
    | none => simpa using le_of_eq hts1
    | some p =>
      simp only []
      rcases hE : TodoList.log_execution ⟨ts1⟩ i (str "subtask_completed")
          (str "完成子任务: " ++ p.1) now with ⟨r, l2⟩
      have hsnd : activeCount l2 ≤ activeCount l := by
        have h1 := congrArg Prod.snd hE
        simp only at h1
        rw [← h1, activeCount_log_execution]
        exact le_of_eq hts1
      cases r with
      | error e => simpa using hsnd
      | ok b =>
        by_cases hdone : p.2.2 = true
        · simp only [hdone, if_true]
          rcases hE2 : TodoList.complete_todo l2 i now with ⟨r2, l3⟩
          have hsnd2 : activeCount l3 ≤ activeCount l2 := by
            have h2 := congrArg Prod.snd hE2
            simp only at h2
            rw [← h2]
            exact activeCount_complete l2 i now
          cases r2 <;> simpa using le_trans hsnd2 hsnd
        · simp only [Bool.not_eq_true] at hdone
          simp only [hdone, Bool.false_eq_true, if_false]
          simpa using hsnd

theorem start_todo_rejected (l : TodoList) (i : Int) (now : Time)
    (h : activeCount l ≠ 0) : l.start_todo i now = (.ok none, l) := by
  unfold TodoList.start_todo
  rw [if_pos]
  exact h

theorem activeCount_start (l : TodoList) (i : Int) (now : Time)
    (h : activeCount l ≤ 1) : activeCount (l.start_todo i now).2 ≤ 1 := by
  by_cases h0 : activeCount l = 0
  · unfold TodoList.start_todo
    rw [if_neg (by simpa [activeCount_eq, isActiveT] using h0)]
    cases hf : findTodo i l.todos with
    | none => simpa using h
    | some t =>
      simp only []
      rcases hE : TodoList.log_execution ⟨updateTodo i (startUpd now) l.todos⟩ i
          (str "started") (str "开始执行任务: " ++ t.content) now with ⟨r, l2⟩
      have hsnd : activeCount l2 ≤ 1 := by
        have h1 := congrArg Prod.snd hE
        simp only at h1
        rw [← h1, activeCount_log_execution]
        have h2 := countP_updateTodo_le_add_one isActiveT i (startUpd now) l.todos
        have h3 : l.todos.countP isActiveT = 0 := h0
        rw [activeCount_eq]
        show (updateTodo i (startUpd now) l.todos).countP isActiveT ≤ 1
        omega
      cases r <;> simpa using hsnd
  · rw [start_todo_rejected l i now h0]
    simpa using h

theorem start_todo_success (l : TodoList) (i : Int) (now : Time) (t : Todo)
    (lg : List LogEntry) (h0 : activeCount l = 0) (hf : findTodo i l.todos = some t)
    (hl : t.execution_log = some lg) :
    l.start_todo i now =
      (.ok (some (appendLog ⟨now, str "started", str "开始执行任务: " ++ t.content⟩
          (startUpd now t))),
        ⟨updateTodo i (appendLog ⟨now, str "started", str "开始执行任务: " ++ t.content⟩)
          (updateTodo i (startUpd now) l.todos)⟩) := by
  unfold TodoList.start_todo
  rw [if_neg (by simpa [activeCount_eq, isActiveT] using h0)]
  rw [hf]
  simp only []
  have hfind1 : findTodo i (updateTodo i (startUpd now) l.todos) = some (startUpd now t) := by
    rw [findTodo_updateTodo i (startUpd now) l.todos (fun u => rfl), hf]
    rfl
  have hlog : TodoList.log_execution ⟨updateTodo i (startUpd now) l.todos⟩ i (str "started")
      (str "开始执行任务: " ++ t.content) now =
      (.ok true, ⟨updateTodo i
        (appendLog ⟨now, str "started", str "开始执行任务: " ++ t.content⟩)
        (updateTodo i (startUpd now) l.todos)⟩) := by
    have := logExecGo_ok i ⟨now, str "started", str "开始执行任务: " ++ t.content⟩
      (updateTodo i (startUpd now) l.todos) (startUpd now t) lg hfind1 hl
    simp [TodoList.log_execution, this]
  rw [hlog]
  simp only []
  rw [findTodo_updateTodo i
    (appendLog ⟨now, str "started", str "开始执行任务: " ++ t.content⟩)
    (updateTodo i (startUpd now) l.todos) (fun u => rfl), hfind1]
  rfl

/-- Concrete engine states used by the closed statements below. -/
def exList : TodoList :=
  (((TodoList.add ⟨[]⟩ (str "a") (str "medium") 0).2).add (str "b") (str "medium") 0).2

def exTwoActive : TodoList :=
  ((exList.update_status 1 statusInProgress).2.update_status 2 statusInProgress).2

def exBatchActive : TodoList :=
  (TodoList.update_all ⟨[]⟩
    [⟨str "a", some statusInProgress, none⟩, ⟨str "b", some statusInProgress, none⟩]).2

/-- C1 counterexample: the single-active-task invariant is *not* preserved
by every operation of the engine: starting from a reachable state
satisfying it, one `update_status` call (and likewise one `update_all`
call) produces two `in_progress` tasks. -/
theorem update_status_breaks_single_active :
    activeCount (exList.update_status 1 statusInProgress).2 = 1 ∧
    activeCount exTwoActive = 2 ∧
    activeCount exBatchActive = 2 := by
  refine ⟨by decide, by decide, by decide⟩

/-- C1 (amended): the single-active-task invariant holds in the empty
state and is preserved by every engine operation except `update_status`
and `update_all` (which overwrite statuses without validation):
`add`, `modify`, `delete`, `log_execution`, `break_down_task`,
`complete_todo`, `update_progress`, `complete_subtask` preserve it, and
`start_todo` enforces it — rejected (returns the absent sentinel with no
state change) whenever any task is `in_progress`, regardless of which
task was requested, and otherwise sets the status to `in_progress`,
records a start timestamp and appends an execution-log entry tagged
`started`. -/
theorem single_active_task_invariant :
    activeCount ⟨[]⟩ = 0 ∧
    (∀ (l : TodoList) (c pr : Str) (now : Time),
        activeCount (l.add c pr now).2 = activeCount l) ∧
    (∀ (l : TodoList) (i : Int) (c pr : Str),
        activeCount (l.modify i c pr).2 = activeCount l) ∧
    (∀ (l : TodoList) (i : Int), activeCount (l.delete i).2 ≤ activeCount l) ∧
    (∀ (l : TodoList) (i : Int) (a d : Str) (now : Time),
        activeCount (l.log_execution i a d now).2 = activeCount l) ∧
    (∀ (l : TodoList) (i : Int) (cs : List Str) (now : Time),
        activeCount (l.break_down_task i cs now).2 = activeCount l) ∧
    (∀ (l : TodoList) (i : Int) (now : Time),
        activeCount (l.complete_todo i now).2 ≤ activeCount l) ∧
    (∀ (l : TodoList) (i : Int) (p : Int) (now : Time),
        activeCount (l.update_progress i p now).2 ≤ activeCount l) ∧
    (∀ (l : TodoList) (i : Int) (sid : Str) (now : Time),
        activeCount (l.complete_subtask i sid now).2 ≤ activeCount l) ∧
    (∀ (l : TodoList) (i : Int) (now : Time),
        activeCount l ≤ 1 → activeCount (l.start_todo i now).2 ≤ 1) ∧
    (∀ (l : TodoList) (i : Int) (now : Time),
        activeCount l ≠ 0 → l.start_todo i now = (.ok none, l)) ∧
    (∀ (l : TodoList) (i : Int) (now : Time) (t : Todo) (lg : List LogEntry),
        activeCount l = 0 → findTodo i l.todos = some t →
        t.execution_log = some lg →
        ∃ t2 l2, l.start_todo i now = (.ok (some t2), l2) ∧
          findTodo i l2.todos = some t2 ∧
          t2.status = statusInProgress ∧ t2.started_at = some now ∧
          t2.execution_log = some (lg ++
            [⟨now, str "started", str "开始执行任务: " ++ t.content⟩])) := by
  refine ⟨rfl, activeCount_add, activeCount_modify, activeCount_delete,
    activeCount_log_execution, activeCount_break_down, activeCount_complete,
    activeCount_update_progress, activeCount_complete_subtask, activeCount_start,
    start_todo_rejected, ?_⟩
  intro l i now t lg h0 hf hl
  refine ⟨_, _, start_todo_success l i now t lg h0 hf hl, ?_, rfl, rfl, ?_⟩
  · rw [findTodo_updateTodo i
        (appendLog ⟨now, str "started", str "开始执行任务: " ++ t.content⟩)
        (updateTodo i (startUpd now) l.todos) (fun u => rfl),
      findTodo_updateTodo i (startUpd now) l.todos (fun u => rfl), hf]
    rfl
  · simp [appendLog, startUpd, hl]

/-- Witness for the single-active-task statement at a concrete state. -/
theorem single_active_task_invariant_witness :
    ∃ t2 l2, ((TodoList.add ⟨[]⟩ (str "a") (str "medium") 3).2).start_todo 1 7 =
        (.ok (some t2), l2) ∧
      findTodo 1 l2.todos = some t2 ∧
      t2.status = statusInProgress ∧ t2.started_at = some 7 ∧
      t2.execution_log = some
        [⟨7, str "started", str "开始执行任务: " ++ str "a"⟩] := by
  have h := single_active_task_invariant
  exact h.2.2.2.2.2.2.2.2.2.2.2 (TodoList.add ⟨[]⟩ (str "a") (str "medium") 3).2 1 7
    ((TodoList.add ⟨[]⟩ (str "a") (str "medium") 3).1) [] (by decide) (by decide) rfl

/-- Adds applied in sequence from the empty list. -/
def applyAdds (cs : List Str) (now : Time) : TodoList :=
  cs.foldl (fun l c => (l.add c (str "medium") now).2) ⟨[]⟩

theorem applyAdds_ids_go (cs : List Str) : ∀ (l : TodoList) (now : Time),
    ((cs.foldl (fun l c => (l.add c (str "medium") now).2) l).todos.map Todo.id) =
      l.todos.map Todo.id ++
        (List.range cs.length).map (fun n => Int.ofNat (l.todos.length + n) + 1) := by
  induction cs with
  | nil => intro l now; simp
  | cons c cs ih =>
    intro l now
    rw [List.foldl_cons, ih]
    simp only [TodoList.add, List.map_append, List.map_cons, List.map_nil,
      List.length_append, List.length_cons, List.length_nil, List.length_map,
      List.range_succ_eq_map, List.map_map, List.append_assoc, List.cons_append,
      List.nil_append]
    congr 1
    congr 1
    simp only [List.map_inj_left, Function.comp_apply]
    intro a ha
    congr 1
    congr 1
    omega

def exReuse : TodoList := (((exList.delete 1).2).add (str "c") (str "medium") 0).2

/-- C2 counterexample: after deleting task 1 from a two-task list, the
next `add` assigns id = size + 1 = 2, which the remaining task already
has: ids are reused after a deletion and are no longer pairwise
distinct. -/
theorem delete_then_add_reuses_id :
    exReuse.todos.map Todo.id = [2, 2] ∧
    ¬ (exReuse.todos.map Todo.id).Nodup := by
  refine ⟨by decide, by decide⟩

/-- C2 (amended): `add` always assigns id = current collection size + 1
and appends the record, so in any history consisting only of `add`
operations the ids are exactly 1..N, 1-based, sequential and pairwise
distinct; after a deletion of a non-final task a later `add` can reuse
an existing id (see the counterexample). -/
theorem add_assigns_sequential_ids :
    (∀ (l : TodoList) (c pr : Str) (now : Time),
        (l.add c pr now).1.id = Int.ofNat l.todos.length + 1 ∧
        (l.add c pr now).2.todos = l.todos ++ [(l.add c pr now).1]) ∧
    (∀ (cs : List Str) (now : Time),
        (applyAdds cs now).todos.map Todo.id =
          (List.range cs.length).map (fun n => Int.ofNat n + 1)) ∧
    (∀ (cs : List Str) (now : Time), ((applyAdds cs now).todos.map Todo.id).Nodup) := by
  refine ⟨fun l c pr now => ⟨rfl, rfl⟩, ?_, ?_⟩
  · intro cs now
    have h := applyAdds_ids_go cs ⟨[]⟩ now
    simpa [applyAdds] using h
  · intro cs now
    have h := applyAdds_ids_go cs ⟨[]⟩ now
    have h2 : (applyAdds cs now).todos.map Todo.id =
        (List.range cs.length).map (fun n => Int.ofNat n + 1) := by
      simpa [applyAdds] using h
    rw [h2]
    refine List.Nodup.map ?_ (List.nodup_range cs.length)
    intro a b hab
    dsimp at hab
    omega

/-- C8: with the configured maximum conversation depth 5, a turn entered
at depth ≥ 5 returns the fixed depth-limit error string, makes no model
call, and leaves the session unchanged, for every registry, model oracle
and clock. -/
theorem depth_limit_guard :
    MAX_CONVERSATION_DEPTH = 5 ∧
    ∀ (tbl : List (Str × Handler)) (oracle : Nat → List Str) (times : Nat → Time)
      (depth : Nat) (st : SessionState) (k : Nat),
      MAX_CONVERSATION_DEPTH ≤ depth →
      process_conversation_turn tbl oracle times depth st k = (depthLimitError, st, 0) := by
  refine ⟨rfl, ?_⟩
  intro tbl oracle times depth st k h
  unfold process_conversation_turn
  rw [if_pos h]

/-- Witness: the depth guard at exactly depth 5. -/
theorem depth_limit_guard_witness :
    process_conversation_turn [] (fun _ => []) (fun _ => 0) 5 ⟨none, [], 0⟩ 0 =
      (depthLimitError, ⟨none, [], 0⟩, 0) :=
  depth_limit_guard.2 [] (fun _ => []) (fun _ => 0) 5 ⟨none, [], 0⟩ 0 (by decide)

def c9session : SessionState × SessionDoc := SessionManager.create_new_session 0 100

/-- C9: `save_current_session` stamps the persisted `created_at` with the
save-time clock rather than preserving the session's creation timestamp:
a session created at time 100 and saved at time 200 is written with
`created_at = 200 ≠ 100` (its `session_id` is preserved and
`last_activity` is freshly stamped, as the claim states). -/
theorem save_restamps_created_at :
    c9session.2.session_id = str "session_001" ∧
    c9session.2.created_at = 100 ∧
    SessionManager.save_current_session c9session.1 200 =
      some ⟨str "session_001", 200, 200, []⟩ ∧
    (200 : Time) ≠ 100 := by
  refine ⟨by decide, rfl, by decide, by decide⟩

/-- C10: records rebuilt by `update_all` carry only id, content, status
and priority (all other keys are absent); on any collection whose
records all lack `execution_log`, a `start_todo` that passes the
single-active check and finds its id raises `KeyError` instead of
returning a record, and on any collection whose records all lack
`progress`, an `update_progress` that finds its id raises `KeyError`. -/
theorem update_all_records_partial :
    (∀ (l : TodoList) (entries : List BatchEntry) (t : Todo),
        t ∈ (l.update_all entries).1 →
        t.progress = none ∧ t.subtasks = none ∧ t.execution_log = none ∧
        t.activeForm = none ∧ t.created_at = none ∧ t.started_at = none ∧
        t.completed_at = none) ∧
    (∀ (L : TodoList) (i : Int) (now : Time) (t : Todo),
        (∀ u ∈ L.todos, u.execution_log = none) →
        activeCount L = 0 → findTodo i L.todos = some t →
        (L.start_todo i now).1 = .error (.keyError (str "execution_log"))) ∧
    (∀ (L : TodoList) (i : Int) (p : Int) (now : Time) (t : Todo),
        (∀ u ∈ L.todos, u.progress = none) →
        findTodo i L.todos = some t →
        (L.update_progress i p now).1 = .error (.keyError (str "progress"))) := by
  refine ⟨?_, ?_, ?_⟩
  · intro l entries t ht
    simp only [TodoList.update_all, List.mem_map] at ht
    obtain ⟨p, _, rfl⟩ := ht
    exact ⟨rfl, rfl, rfl, rfl, rfl, rfl, rfl⟩
  · intro L i now t hnone h0 hf
    unfold TodoList.start_todo
    rw [if_neg (by simpa [activeCount_eq, isActiveT] using h0)]
    rw [hf]
    simp only []
    have hfind1 : findTodo i (updateTodo i (startUpd now) L.todos) =
        some (startUpd now t) := by
      rw [findTodo_updateTodo i (startUpd now) L.todos (fun u => rfl), hf]
      rfl
    have hlt : (startUpd now t).execution_log = none := by
      simpa [startUpd] using hnone t (findTodo_mem hf)
    have hlog : TodoList.log_execution ⟨updateTodo i (startUpd now) L.todos⟩ i
        (str "started") (str "开始执行任务: " ++ t.content) now =
        (.error (.keyError (str "execution_log")),
          ⟨updateTodo i (startUpd now) L.todos⟩) := by
      have := logExecGo_err i ⟨now, str "started", str "开始执行任务: " ++ t.content⟩
        (updateTodo i (startUpd now) L.todos) (startUpd now t) hfind1 hlt
      simp [TodoList.log_execution, this]
    rw [hlog]
  · intro L i p now t hnone hf
    unfold TodoList.update_progress
    rw [hf]
    simp only []
    rw [hnone t (findTodo_mem hf)]

def exBatch : TodoList := (TodoList.update_all ⟨[]⟩ [⟨str "a", none, none⟩]).2

/-- Witness: a concrete batch-created record on which both executable
operations raise `KeyError`. -/
theorem update_all_records_partial_witness :
    (exBatch.start_todo 1 0).1 = .error (.keyError (str "execution_log")) ∧
    (exBatch.update_progress 1 5 0).1 = .error (.keyError (str "progress")) := by
  have h := update_all_records_partial
  refine ⟨?_, ?_⟩
  · exact h.2.1 exBatch 1 0
      ⟨1, str "a", statusPending, str "medium", none, none, none, none, none, none, none⟩
      (by decide) (by decide) (by decide)
  · exact h.2.2 exBatch 1 5 0
      ⟨1, str "a", statusPending, str "medium", none, none, none, none, none, none, none⟩
      (by decide) (by decide)

theorem complete_todo_success (l : TodoList) (i : Int) (now : Time) (t : Todo)
    (lg : List LogEntry) (hf : findTodo i l.todos = some t)
    (hl : t.execution_log = some lg) :
    l.complete_todo i now =
      (.ok (some (appendLog ⟨now, str "completed", str "任务完成: " ++ t.content⟩
          (completeUpd now t))),
        ⟨updateTodo i (appendLog ⟨now, str "completed", str "任务完成: " ++ t.content⟩)
          (updateTodo i (completeUpd now) l.todos)⟩) := by
  unfold TodoList.complete_todo
  rw [hf]
  simp only []
  have hfind1 : findTodo i (updateTodo i (completeUpd now) l.todos) =
      some (completeUpd now t) := by
    rw [findTodo_updateTodo i (completeUpd now) l.todos (fun u => rfl), hf]
    rfl
  have hlog : TodoList.log_execution ⟨updateTodo i (completeUpd now) l.todos⟩ i
      (str "completed") (str "任务完成: " ++ t.content) now =
      (.ok true, ⟨updateTodo i
        (appendLog ⟨now, str "completed", str "任务完成: " ++ t.content⟩)
        (updateTodo i (completeUpd now) l.todos)⟩) := by
    have := logExecGo_ok i ⟨now, str "completed", str "任务完成: " ++ t.content⟩
      (updateTodo i (completeUpd now) l.todos) (completeUpd now t) lg hfind1
      (by simpa [completeUpd] using hl)
    simp [TodoList.log_execution, this]
  rw [hlog]
  simp only []
  rw [findTodo_updateTodo i
    (appendLog ⟨now, str "completed", str "任务完成: " ++ t.content⟩)
    (updateTodo i (completeUpd now) l.todos) (fun u => rfl), hfind1]
  rfl


theorem update_progress_spec :
    ∀ (l : TodoList) (i : Int) (p : Int) (now : Time) (t : Todo) (old : Int)
      (lg : List LogEntry),
      findTodo i l.todos = some t → t.progress = some old →
      t.execution_log = some lg →
      ∃ t2 l2, l.update_progress i p now = (.ok (some t2), l2) ∧
        findTodo i l2.todos = some t2 ∧
        t2.progress = some (max 0 (min 100 p)) ∧
        t2.execution_log = some (lg ++
          ⟨now, str "progress", str "进度更新: " ++ intToStr old ++ str "% -> " ++
            intToStr p ++ str "%"⟩ ::
          (if 100 ≤ p then
            [⟨now, str "completed", str "任务完成: " ++ t.content⟩] else [])) ∧
        ((t2.status = statusCompleted ∧ t2.progress = some 100 ∧
            t2.completed_at ≠ none) ↔ max 0 (min 100 p) = 100) := by
  intro l i p now t old lg hf hp hl
  unfold TodoList.update_progress
  rw [hf]
  simp only []
  rw [hp]
  simp only []
  set e1 : LogEntry := ⟨now, str "progress",
    str "进度更新: " ++ intToStr old ++ str "% -> " ++ intToStr p ++ str "%"⟩ with he1
  set ts1 : List Todo := updateTodo i (progressUpd p) l.todos with hts1
  have hfind1 : findTodo i ts1 = some (progressUpd p t) := by
    rw [hts1, findTodo_updateTodo i (progressUpd p) l.todos (fun u => rfl), hf]
    rfl
  have hlog : TodoList.log_execution ⟨ts1⟩ i (str "progress")
      (str "进度更新: " ++ intToStr old ++ str "% -> " ++ intToStr p ++ str "%") now =
      (.ok true, ⟨updateTodo i (appendLog e1) ts1⟩) := by
    have h2 := logExecGo_ok i e1 ts1 (progressUpd p t) lg hfind1
      (by simpa [progressUpd] using hl)
    simp only [TodoList.log_execution, ← he1, h2]
  rw [hlog]
  simp only []
  set ts2 : List Todo := updateTodo i (appendLog e1) ts1 with hts2
  have hfind2 : findTodo i ts2 = some (appendLog e1 (progressUpd p t)) := by
    rw [hts2, findTodo_updateTodo i (appendLog e1) ts1 (fun u => rfl), hfind1]
    rfl
  by_cases hge : (100 : Int) ≤ p
  · rw [if_pos hge]
    have hcomp := complete_todo_success ⟨ts2⟩ i now (appendLog e1 (progressUpd p t))
      (lg ++ [e1]) hfind2 (by simp [appendLog, progressUpd, hl, he1])
    rw [hcomp]
    dsimp only []
    have hfind3 : findTodo i (updateTodo i
        (appendLog ⟨now, str "completed",
          str "任务完成: " ++ (appendLog e1 (progressUpd p t)).content⟩)
        (updateTodo i (completeUpd now) ts2)) =
        some (appendLog ⟨now, str "completed",
            str "任务完成: " ++ (appendLog e1 (progressUpd p t)).content⟩
          (completeUpd now (appendLog e1 (progressUpd p t)))) := by
      rw [findTodo_updateTodo i
        (appendLog ⟨now, str "completed",
          str "任务完成: " ++ (appendLog e1 (progressUpd p t)).content⟩)
        (updateTodo i (completeUpd now) ts2) (fun u => rfl)]
      rw [findTodo_updateTodo i (completeUpd now) ts2 (fun u => rfl), hfind2]
      rfl
    rw [hfind3]
    refine ⟨_, _, rfl, ?_, ?_, ?_, ?_⟩
    · exact hfind3
    · simp only [appendLog, completeUpd]
      congr 2
      omega
    · simp [appendLog, completeUpd, progressUpd, hl, hge, he1]
    · constructor
      · intro _
        omega
      · intro _
        exact ⟨rfl, by simp [appendLog, completeUpd], by simp [appendLog, completeUpd]⟩
  · rw [if_neg hge]
    rw [show findTodo i (TodoList.mk ts2).todos = some (appendLog e1 (progressUpd p t))
      from hfind2]
    refine ⟨_, _, rfl, hfind2, ?_, ?_, ?_⟩
    · simp [appendLog, progressUpd]
    · simp [appendLog, progressUpd, hl, hge, he1]
    · constructor
      · rintro ⟨_, hpr, _⟩
        simp only [appendLog, progressUpd] at hpr
        rw [Option.some.injEq] at hpr
        omega
      · intro hmax
        omega

/-- Witness: the two concrete scenarios of the claim, `update_progress(id, 150)`
and `update_progress(id, -20)` on a freshly added task. -/
theorem update_progress_spec_witness :
    (∃ t2 l2, exList.update_progress 1 150 5 = (.ok (some t2), l2) ∧
      findTodo 1 l2.todos = some t2 ∧ t2.progress = some 100 ∧
      t2.status = statusCompleted ∧ t2.completed_at ≠ none) ∧
    (∃ t2 l2, exList.update_progress 1 (-20) 5 = (.ok (some t2), l2) ∧
      t2.progress = some 0 ∧
      ¬ (t2.status = statusCompleted ∧ t2.progress = some 100 ∧
          t2.completed_at ≠ none)) := by
  constructor
  · obtain ⟨t2, l2, h1, h2, h3, h4, h5⟩ := update_progress_spec exList 1 150 5
      ⟨1, str "a", statusPending, str "medium", some 0, some (str "正在" ++ str "a"),
        some [], some 0, none, none, some []⟩ 0 [] (by decide) rfl rfl
    have hm : (max 0 (min 100 (150 : Int))) = 100 := by decide
    refine ⟨t2, l2, h1, h2, ?_, ?_, ?_⟩
    · rwa [hm] at h3
    · exact (h5.mpr (by decide)).1
    · exact (h5.mpr (by decide)).2.2
  · obtain ⟨t2, l2, h1, h2, h3, h4, h5⟩ := update_progress_spec exList 1 (-20) 5
      ⟨1, str "a", statusPending, str "medium", some 0, some (str "正在" ++ str "a"),
        some [], some 0, none, none, some []⟩ 0 [] (by decide) rfl rfl
    have hm : (max 0 (min 100 (-20 : Int))) = 0 := by decide
    refine ⟨t2, l2, h1, ?_, ?_⟩
    · rwa [hm] at h3
    · intro htriple
      exact absurd (h5.mp htriple) (by decide)

/-- Position of the first task with the given id. -/
def findTodoIdx (i : Int) : List Todo → Option Nat
  | [] => none
  | t :: ts => if t.id = i then some 0 else (findTodoIdx i ts).map (· + 1)

theorem findTodoIdx_get (i : Int) : ∀ (ts : List Todo) (n : Nat),
    findTodoIdx i ts = some n →
    ∀ f : Todo → Todo, (updateTodo i f ts).get? n = (findTodo i ts).map f := by
  intro ts
  induction ts with
  | nil => intro n h; simp [findTodoIdx] at h
  | cons u us ih =>
    intro n h f
    by_cases hu : u.id = i
    · simp [findTodoIdx, hu] at h
      subst h
      simp [updateTodo, findTodo, hu]
    · simp [findTodoIdx, hu] at h
      obtain ⟨m, hm, rfl⟩ := h
      simp [updateTodo, findTodo, hu]
      simpa using ih m hm f

theorem markFirstSubtask_marks (sid : Str) : ∀ (sts : List Subtask) (c : Str)
    (sts2 : List Subtask), markFirstSubtask sid sts = some (c, sts2) →
    sts2.length = sts.length ∧ 0 < sts2.length ∧
    ∃ st ∈ sts2, st.id = sid ∧ st.completed = true := by
  intro sts
  induction sts with
  | nil => intro c sts2 h; simp [markFirstSubtask] at h
  | cons st sts ih =>
    intro c sts2 h
    by_cases hs : st.id = sid
    · simp [markFirstSubtask, hs] at h
      obtain ⟨rfl, rfl⟩ := h
      exact ⟨by simp, by simp, ⟨_, List.mem_cons_self _ _, rfl, rfl⟩⟩
    · simp [markFirstSubtask, hs] at h
      obtain ⟨c2, sts3, hc, hc1, hc2⟩ := h
      subst hc1
      subst hc2
      obtain ⟨hlen, hpos, st2, hmem, hid2, hcomp⟩ := ih _ _ hc
      exact ⟨by simp [hlen], by simp,
        ⟨st2, List.mem_cons_of_mem _ hmem, hid2, hcomp⟩⟩

theorem markSubtask_spec (i : Int) (sid : Str) (sts : List Subtask) (c : Str)
    (sts2 : List Subtask) (hm : markFirstSubtask sid sts = some (c, sts2)) :
    ∀ (ts : List Todo) (k : Nat) (t : Todo), findTodo i ts = some t →
    t.subtasks = some sts →
    ∃ n, findTodoIdx i ts = some n ∧
      markSubtask i sid k ts =
        (.ok (some (c, k + n, decide (0 < sts2.length) &&
          (sts2.countP (fun st => st.completed) == sts2.length))),
         updateTodo i (markUpd sts2) ts) := by
  intro ts
  induction ts with
  | nil => intro k t hf; simp [findTodo] at hf
  | cons u us ih =>
    intro k t hf hs
    by_cases hu : u.id = i
    · simp [findTodo, hu] at hf
      subst hf
      refine ⟨0, by simp [findTodoIdx, hu], ?_⟩
      simp [markSubtask, hu, hs, hm, updateTodo]
    · simp [findTodo, hu] at hf
      obtain ⟨n, hidx, heq⟩ := ih (k + 1) t hf hs
      refine ⟨n + 1, by simp [findTodoIdx, hu, hidx], ?_⟩
      simp only [markSubtask, hu, if_false, heq, updateTodo]
      have hk : k + 1 + n = k + (n + 1) := by omega
      rw [hk]

theorem markUpd_id (sts2 : List Subtask) (u : Todo) : (markUpd sts2 u).id = u.id := by
  by_cases h : 0 < sts2.length <;> simp [markUpd, subtasksUpd, h]

theorem markUpd_log (sts2 : List Subtask) (u : Todo) :
    (markUpd sts2 u).execution_log = u.execution_log := by
  by_cases h : 0 < sts2.length <;> simp [markUpd, subtasksUpd, h]

theorem complete_subtask_spec :
    ∀ (l : TodoList) (i : Int) (sid : Str) (now : Time) (t : Todo)
      (sts : List Subtask) (c : Str) (sts2 : List Subtask) (lg : List LogEntry),
      findTodo i l.todos = some t → t.subtasks = some sts →
      markFirstSubtask sid sts = some (c, sts2) → t.execution_log = some lg →
      ∃ t2 l2, l.complete_subtask i sid now = (.ok (some t2), l2) ∧
        t2.subtasks = some sts2 ∧
        (if sts2.countP (fun st => st.completed) = sts2.length then
          t2.status = statusCompleted ∧ t2.progress = some 100 ∧
            t2.completed_at = some now
         else t2.progress = some (Int.ofNat
            (floatPct (sts2.countP (fun st => st.completed)) sts2.length))) := by
  intro l i sid now t sts c sts2 lg hf hs hm hl
  obtain ⟨n, hidx, heq⟩ := markSubtask_spec i sid sts c sts2 hm l.todos 0 t hf hs
  have hpos : 0 < sts2.length := (markFirstSubtask_marks sid sts c sts2 hm).2.1
  unfold TodoList.complete_subtask
  rw [heq]
  simp only []
  set e1 : LogEntry := ⟨now, str "subtask_completed", str "完成子任务: " ++ c⟩ with he1
  set ts1 : List Todo := updateTodo i (markUpd sts2) l.todos with hts1
  have hfind1 : findTodo i ts1 = some (markUpd sts2 t) := by
    rw [hts1, findTodo_updateTodo i (markUpd sts2) l.todos (markUpd_id sts2), hf]
    rfl
  have hlog : TodoList.log_execution ⟨ts1⟩ i (str "subtask_completed")
      (str "完成子任务: " ++ c) now = (.ok true, ⟨updateTodo i (appendLog e1) ts1⟩) := by
    have h2 := logExecGo_ok i e1 ts1 (markUpd sts2 t) lg hfind1
      (by rw [markUpd_log]; exact hl)
    simp only [TodoList.log_execution, ← he1, h2]
  rw [hlog]
  simp only []
  set ts2L : List Todo := updateTodo i (appendLog e1) ts1 with hts2
  have hfind2 : findTodo i ts2L = some (appendLog e1 (markUpd sts2 t)) := by
    rw [hts2, findTodo_updateTodo i (appendLog e1) ts1 (fun u => rfl), hfind1]
    rfl
  have hA : ts2L = updateTodo i (fun u => appendLog e1 (markUpd sts2 u)) l.todos := by
    rw [hts2, hts1, updateTodo_updateTodo i (markUpd sts2) (appendLog e1) l.todos (markUpd_id sts2)]
  by_cases hall : sts2.countP (fun st => st.completed) = sts2.length
  · have hflag : (decide (0 < sts2.length) &&
        (sts2.countP (fun st => st.completed) == sts2.length)) = true := by
      simp [hpos, hall]
    rw [hflag]
    simp only [if_true]
    have hcomp := complete_todo_success ⟨ts2L⟩ i now (appendLog e1 (markUpd sts2 t))
      (lg ++ [e1]) hfind2 (by simp [appendLog, markUpd_log, hl])
    rw [hcomp]
    dsimp only []
    have hB : updateTodo i (completeUpd now) ts2L =
        updateTodo i (fun u => completeUpd now (appendLog e1 (markUpd sts2 u))) l.todos := by
      rw [hA, updateTodo_updateTodo i _ (completeUpd now) l.todos
        (fun u => by simp [appendLog, markUpd_id])]
    have hC : updateTodo i (appendLog ⟨now, str "completed",
          str "任务完成: " ++ (appendLog e1 (markUpd sts2 t)).content⟩)
          (updateTodo i (completeUpd now) ts2L) =
        updateTodo i (fun u => appendLog ⟨now, str "completed",
            str "任务完成: " ++ (appendLog e1 (markUpd sts2 t)).content⟩
          (completeUpd now (appendLog e1 (markUpd sts2 u)))) l.todos := by
      rw [hB, updateTodo_updateTodo i _ _ l.todos
        (fun u => by simp [completeUpd, appendLog, markUpd_id])]
    rw [hC]
    have hget := findTodoIdx_get i l.todos n hidx
      (fun u => appendLog ⟨now, str "completed",
          str "任务完成: " ++ (appendLog e1 (markUpd sts2 t)).content⟩
        (completeUpd now (appendLog e1 (markUpd sts2 u))))
    rw [hf] at hget
    simp only [Nat.zero_add, hget, Option.map_some]
    refine ⟨_, _, rfl, ?_, ?_⟩
    · simp [appendLog, completeUpd, markUpd, subtasksUpd, hpos]
    · rw [if_pos hall]
      exact ⟨rfl, rfl, rfl⟩
  · have hflag : (decide (0 < sts2.length) &&
        (sts2.countP (fun st => st.completed) == sts2.length)) = false := by
      simp [hall]
    rw [hflag]
    simp only [Bool.false_eq_true, if_false]
    rw [hA]
    have hget := findTodoIdx_get i l.todos n hidx (fun u => appendLog e1 (markUpd sts2 u))
    rw [hf] at hget
    simp only [Nat.zero_add, hget, Option.map_some]
    refine ⟨_, _, rfl, ?_, ?_⟩
    · simp [appendLog, markUpd, subtasksUpd, hpos]
    · rw [if_neg hall]
      simp [appendLog, markUpd, subtasksUpd, hpos]

/-- Concrete engine runs for the subtask-progress statements: a task broken
into 50 subtasks with the first k completed, and one broken into 4. -/
def c4base : TodoList :=
  ((TodoList.add ⟨[]⟩ (str "t") (str "medium") 0).2.break_down_task 1
    ((List.range 50).map (fun n => natToStr (n + 1))) 0).2

def c4after (k : Nat) : TodoList :=
  (List.range k).foldl
    (fun l n => (l.complete_subtask 1 (str "1-" ++ natToStr (n + 1)) 0).2) c4base

def c44base : TodoList :=
  ((TodoList.add ⟨[]⟩ (str "t") (str "medium") 0).2.break_down_task 1
    [str "s1", str "s2", str "s3", str "s4"] 0).2

def c44after (k : Nat) : TodoList :=
  (List.range k).foldl
    (fun l n => (l.complete_subtask 1 (str "1-" ++ natToStr (n + 1)) 0).2) c44base

/-- C4 counterexample: the progress written by `complete_subtask` is the
binary64 evaluation of `int((completed / total) * 100)`, which is not
`floor(100 * completed / total)`: on a task with 50 subtasks, completing
the 29th stores progress 57 while the floor formula gives 58. -/
theorem complete_subtask_float_counterexample :
    ((findTodo 1 ((c4after 28).complete_subtask 1 (str "1-29") 0).2.todos).map
        (fun t => (t.progress,
          (t.subtasks.getD []).countP (fun st => st.completed),
          (t.subtasks.getD []).length))) =
      some (some 57, 29, 50) ∧
    (100 * 29) / 50 = 58 ∧ (57 : Int) ≠ 58 := by
  refine ⟨by decide, by decide, by decide⟩

/-- C4 (amended): `complete_subtask` marks the named subtask complete and
recomputes the parent's progress as the binary64 evaluation of
`int((completedSubtasks / totalSubtasks) * 100)` (`floatPct`), completing
the parent (status `completed`, progress 100, completion timestamp set)
when all subtasks are complete; the binary64 value agrees with
`floor(100 * completed / total)` in the 4-subtask scenario: after 2
completions the parent's progress is exactly 50, and after all 4 the
parent is completed with progress 100. -/
theorem complete_subtask_progress :
    (∀ (sid : Str) (sts : List Subtask) (c : Str) (sts2 : List Subtask),
        markFirstSubtask sid sts = some (c, sts2) →
        sts2.length = sts.length ∧
        ∃ st ∈ sts2, st.id = sid ∧ st.completed = true) ∧
    (∀ (l : TodoList) (i : Int) (sid : Str) (now : Time) (t : Todo)
        (sts : List Subtask) (c : Str) (sts2 : List Subtask) (lg : List LogEntry),
        findTodo i l.todos = some t → t.subtasks = some sts →
        markFirstSubtask sid sts = some (c, sts2) → t.execution_log = some lg →
        ∃ t2 l2, l.complete_subtask i sid now = (.ok (some t2), l2) ∧
          t2.subtasks = some sts2 ∧
          (if sts2.countP (fun st => st.completed) = sts2.length then
            t2.status = statusCompleted ∧ t2.progress = some 100 ∧
              t2.completed_at = some now
           else t2.progress = some (Int.ofNat
              (floatPct (sts2.countP (fun st => st.completed)) sts2.length)))) ∧
    ((findTodo 1 (c44after 2).todos).map (fun t => t.progress) = some (some 50)) ∧
    ((findTodo 1 (c44after 4).todos).map
        (fun t => (t.status, t.progress, t.completed_at)) =
      some (statusCompleted, some 100, some 0)) := by
  refine ⟨?_, complete_subtask_spec, by decide, by decide⟩
  intro sid sts c sts2 h
  exact ⟨(markFirstSubtask_marks sid sts c sts2 h).1,
    (markFirstSubtask_marks sid sts c sts2 h).2.2⟩

def wTodo4 : Todo :=
  ⟨1, str "t", statusPending, str "medium", some 0, none,
    some [⟨str "1-1", str "s1", false⟩, ⟨str "1-2", str "s2", false⟩],
    none, none, none, some []⟩

def wSts4 : List Subtask := [⟨str "1-1", str "s1", false⟩, ⟨str "1-2", str "s2", false⟩]

def wSts4m : List Subtask := [⟨str "1-1", str "s1", true⟩, ⟨str "1-2", str "s2", false⟩]

/-- Witness: the subtask-progress statement instantiated on a concrete
task with two subtasks, completing the first. -/
theorem complete_subtask_progress_witness :
    ∃ t2 l2, (TodoList.mk [wTodo4]).complete_subtask 1 (str "1-1") 3 =
        (.ok (some t2), l2) ∧
      t2.subtasks = some wSts4m ∧
      (if wSts4m.countP (fun st => st.completed) = wSts4m.length
        then t2.status = statusCompleted ∧ t2.progress = some 100 ∧
          t2.completed_at = some 3
        else t2.progress = some (Int.ofNat
          (floatPct (wSts4m.countP (fun st => st.completed)) wSts4m.length))) :=
  complete_subtask_progress.2.1 ⟨[wTodo4]⟩ 1 (str "1-1") 3 wTodo4
    wSts4 (str "s1") wSts4m []
    (by decide) rfl (by decide) rfl

/-! ### Stream function detector statements -/

theorem truncBuffer_le (s : Str) :
    (if 20 < s.length then takeRight 20 s else s).length ≤ 20 := by
  by_cases h20 : 20 < s.length
  · simp only [h20, if_true, takeRight, List.length_drop]
    omega
  · simp only [h20, if_false]
    omega

theorem truncBuffer_suffix (s : Str) :
    (if 20 < s.length then takeRight 20 s else s) <:+ s := by
  by_cases h20 : 20 < s.length
  · simp only [h20, if_true, takeRight]
    exact List.drop_suffix _ _
  · simp only [h20, if_false]
    exact List.suffix_refl _

theorem containsStr_iff (pat : Str) : ∀ s : Str,
    containsStr s pat = true ↔ pat <:+: s := by
  intro s
  induction s with
  | nil =>
    constructor
    · intro h
      by_cases hp : pat.isEmpty
      · simp [List.isEmpty_iff.mp hp]
      · simp [containsStr, firstIdx, hp] at h
    · intro h
      rw [List.infix_nil] at h
      subst h
      rfl
  | cons c cs ih =>
    cases hp : pat.isPrefixOf (c :: cs) with
    | true =>
      have hpre : pat <+: c :: cs := List.isPrefixOf_iff_prefix.mp hp
      simp [containsStr, firstIdx, hp, hpre.isInfix]
    | false =>
      have hnpre : ¬ pat <+: c :: cs := fun h => by
        simp [List.isPrefixOf_iff_prefix.mpr h] at hp
      simp only [containsStr, firstIdx, hp, Bool.false_eq_true, if_false]
      have hcs : (Option.map (fun x => x + 1) (firstIdx pat cs)).isSome =
          containsStr cs pat := by
        unfold containsStr
        cases firstIdx pat cs <;> rfl
      rw [hcs, List.infix_cons_iff]
      constructor
      · intro h
        exact Or.inr (ih.mp h)
      · intro h
        rcases h with h | h
        · exact absurd h hnpre
        · exact ih.mpr h

theorem suffix_append_right {l₂ l₁ t : Str} (h : l₂ <:+ l₁) : l₂ ++ t <:+ l₁ ++ t := by
  obtain ⟨w, rfl⟩ := h
  exact ⟨w, by simp⟩

theorem feedAllQuiet_of_no_marker : ∀ (chunks : List Str) (d : StreamFunctionDetector),
    d.start_tag_found = false →
    ¬ (startMarker <:+: (d.buffer ++ chunks.flatten)) →
    feedAllQuiet d chunks = true := by
  intro chunks
  induction chunks with
  | nil => intro d _ _; rfl
  | cons c cs ih =>
    intro d hsf hni
    have hflat : d.buffer ++ c ++ cs.flatten = d.buffer ++ (c :: cs).flatten := by simp
    have hbc : ¬ (startMarker <:+: (d.buffer ++ c)) := fun h =>
      hni (h.trans ((hflat ▸ List.prefix_append (d.buffer ++ c) cs.flatten)).isInfix)
    have hcontains : containsStr (d.buffer ++ c) startMarker = false := by
      rw [← Bool.not_eq_true,
        not_iff_not.mpr (containsStr_iff startMarker (d.buffer ++ c))]
      exact hbc
    show (match d.feed_chunk c with
      | (stop, _, _, d2) =>
        !stop && decide (d2.buffer.length ≤ 20) && feedAllQuiet d2 cs) = true
    simp only [StreamFunctionDetector.feed_chunk, hsf, Bool.not_false, if_true,
      hcontains, Bool.false_eq_true, if_false]
    set newbuf : Str := if 20 < (d.buffer ++ c).length then takeRight 20 (d.buffer ++ c) else d.buffer ++ c with hnb
    have hsuf : newbuf <:+ d.buffer ++ c := by
      rw [hnb]
      exact truncBuffer_suffix (d.buffer ++ c)
    have hlen : newbuf.length ≤ 20 := by
      rw [hnb]
      exact truncBuffer_le (d.buffer ++ c)
    have hrec := ih { d with buffer := newbuf } hsf
      (fun h => hni (h.trans (by
        have h2 := suffix_append_right (t := cs.flatten) hsuf
        exact (hflat ▸ h2).isInfix)))
    rw [hsf] at hrec
    simp [hrec, hlen]

/-- C5: feeding the three chunks of the literal scenario — with the
opening marker split across chunk boundaries — yields no stop on the
first two chunks and a final stop whose extracted block is the full
`<function_calls>…</function_calls>` span; and on any chunk sequence
whose concatenation never contains the opening marker, the detector
never reports a stop and its retained buffer stays within 20 characters
after every chunk. -/
theorem stream_detector_spec :
    (let r1 := StreamFunctionDetector.reset.feed_chunk (str "hello <func")
     let r2 := r1.2.2.2.feed_chunk (str "tion_calls><invoke")
     let r3 := r2.2.2.2.feed_chunk (str " name=\"x\"></invoke></function_calls> world")
     r1.1 = false ∧ r1.2.1 = none ∧ r2.1 = false ∧ r2.2.1 = none ∧ r3.1 = true ∧
       r3.2.1 = some
         (str "<function_calls><invoke name=\"x\"></invoke></function_calls>")) ∧
    (∀ chunks : List Str, ¬ (startMarker <:+: chunks.flatten) →
      feedAllQuiet StreamFunctionDetector.reset chunks = true) := by
  constructor
  · exact ⟨rfl, rfl, rfl, rfl, rfl, rfl⟩
  · intro chunks h
    exact feedAllQuiet_of_no_marker chunks StreamFunctionDetector.reset rfl
      (by simpa using h)

/-- Witness: the no-marker statement on a concrete chunk sequence
containing partial marker fragments. -/
theorem stream_detector_spec_witness :
    feedAllQuiet StreamFunctionDetector.reset
      [str "hello ", str "world <function", str "_ca and more text here"] = true :=
  stream_detector_spec.2 [str "hello ", str "world <function", str "_ca and more text here"]
    (by decide)

theorem isDigitGuard_ne_nil {s : Str} (h : isDigitGuard s = true) : s ≠ [] := by
  intro he
  rw [he] at h
  simp [isDigitGuard] at h

theorem isDigitGuard_chars {s : Str} (h : isDigitGuard s = true) :
    ∀ c ∈ s, c.isDigit = true ∨ c = '-' ∨ c = '.' := by
  intro c hc
  by_cases h1 : c = '-'
  · exact Or.inr (Or.inl h1)
  by_cases h2 : c = '.'
  · exact Or.inr (Or.inr h2)
  left
  unfold isDigitGuard at h
  simp only [Bool.and_eq_true, List.all_eq_true] at h
  exact h.2 c (List.mem_filter.mpr ⟨hc, by simp [h1, h2]⟩)

theorem toLower_allowed {c : Char} (h : c.isDigit = true ∨ c = '-' ∨ c = '.') :
    c.toLower = c := by
  have hn : ¬ (65 ≤ c.toNat ∧ c.toNat ≤ 90) := by
    rcases h with h | h | h
    · have he : c.isDigit = (48 ≤ c.toNat && c.toNat ≤ 57) := rfl
      rw [he] at h
      simp only [Bool.and_eq_true, decide_eq_true_eq] at h
      omega
    · subst h
      decide
    · subst h
      decide
  have he2 : c.toLower =
      if 65 ≤ c.toNat ∧ c.toNat ≤ 90 then Char.ofNat (c.toNat + 32) else c := rfl
  rw [he2, if_neg hn]

theorem charNe_of_allowed {c x : Char} (h : c.isDigit = true ∨ c = '-' ∨ c = '.')
    (hx : x.isDigit = false) (hx1 : x ≠ '-') (hx2 : x ≠ '.') : c ≠ x := by
  intro he
  subst he
  rcases h with h | h | h
  · rw [h] at hx
    exact absurd hx (by simp)
  · exact hx1 h
  · exact hx2 h

theorem parse_value_fallthrough (s : Str) (hg : isDigitGuard (stripStr s) = true)
    (hint : containsStr (stripStr s) (str ".") = false → parsePyInt (stripStr s) = none)
    (hfloat : containsStr (stripStr s) (str ".") = true → parsePyFloat (stripStr s) = none) :
    SmartParameterParser.parse_value (.pyStr s) = .pyStr (stripStr s) := by
  have hne : stripStr s ≠ [] := isDigitGuard_ne_nil hg
  have hallowed := isDigitGuard_chars hg
  unfold SmartParameterParser.parse_value
  simp only []
  have hie : (stripStr s).isEmpty = false := by
    simp [List.isEmpty_iff, hne]
  rw [hie]
  simp only [Bool.false_eq_true, if_false]
  cases hvc : stripStr s with
  | nil => exact absurd hvc hne
  | cons c cr =>
    rw [hvc] at hg hint hfloat hallowed
    have hcp : c.isDigit = true ∨ c = '-' ∨ c = '.' := hallowed c (by simp)
    have hjson : ((c :: cr).head? == some jsonLb && ((c :: cr).getLast? == some jsonRb) ||
        ((c :: cr).head? == some '[' && ((c :: cr).getLast? == some ']'))) = false := by
      have hc1 : c ≠ jsonLb := charNe_of_allowed hcp (by decide) (by decide) (by decide)
      have hc2 : c ≠ '[' := charNe_of_allowed hcp (by decide) (by decide) (by decide)
      simp [hc1, hc2]
    rw [hjson]
    simp only [Bool.false_eq_true, if_false]
    have hlow : lowerStr (c :: cr) = c :: cr := by
      unfold lowerStr
      rw [List.map_congr_left (fun x hx => toLower_allowed (hallowed x hx))]
      exact List.map_id _
    have htrue : (lowerStr (c :: cr) == str "true") = false := by
      rw [hlow]
      have hne2 : c :: cr ≠ str "true" := by
        intro he
        have hc : c = 't' := (List.cons.injEq _ _ _ _ ▸ he).1
        exact charNe_of_allowed hcp (by decide) (by decide) (by decide) hc
      simp [hne2]
    have hfalse : (lowerStr (c :: cr) == str "false") = false := by
      rw [hlow]
      have hne2 : c :: cr ≠ str "false" := by
        intro he
        have hc : c = 'f' := (List.cons.injEq _ _ _ _ ▸ he).1
        exact charNe_of_allowed hcp (by decide) (by decide) (by decide) hc
      simp [hne2]
    rw [htrue, hfalse]
    simp only [Bool.false_eq_true, if_false, Bool.false_or]
    rw [hg]
    simp only [if_true]
    cases hdot : containsStr (c :: cr) (str ".") with
    | false =>
      rw [hint hdot]
      simp [hdot]
    | true =>
      rw [hfloat hdot]
      simp [hdot]

/-- C6: the value coercion of the smart parameter parser on the claimed
inputs: integers, floats, case-insensitive booleans, JSON objects and
arrays, malformed JSON falling back to the original string, the empty
string, and digit-guard strings whose numeric parse fails falling
through to the trimmed string. -/
theorem parse_value_spec :
    SmartParameterParser.parse_value (.pyStr (str "123")) = .pyInt 123 ∧
    SmartParameterParser.parse_value (.pyStr (str "3.14")) = .pyFloat ⟨314, 100⟩ ∧
    SmartParameterParser.parse_value (.pyStr (str "TRUE")) = .pyBool true ∧
    SmartParameterParser.parse_value (.pyStr (str "false")) = .pyBool false ∧
    SmartParameterParser.parse_value (.pyStr (str "\x7b\"a\": 1\x7d")) =
      .pyDict [(str "a", .pyInt 1)] ∧
    SmartParameterParser.parse_value (.pyStr (str "[1,2]")) =
      .pyList [.pyInt 1, .pyInt 2] ∧
    SmartParameterParser.parse_value (.pyStr (str "\x7bnot json\x7d")) =
      .pyStr (str "\x7bnot json\x7d") ∧
    SmartParameterParser.parse_value (.pyStr (str "")) = .pyStr [] ∧
    (∀ s : Str, isDigitGuard (stripStr s) = true →
      (containsStr (stripStr s) (str ".") = false →
        parsePyInt (stripStr s) = none) →
      (containsStr (stripStr s) (str ".") = true →
        parsePyFloat (stripStr s) = none) →
      SmartParameterParser.parse_value (.pyStr s) = .pyStr (stripStr s)) :=
  ⟨rfl, rfl, rfl, rfl, rfl, rfl, rfl, rfl, parse_value_fallthrough⟩

/-- Witness: the fall-through statement at the digit-guard string
`"1.2.3"`, whose float parse fails. -/
theorem parse_value_spec_witness :
    SmartParameterParser.parse_value (.pyStr (str "1.2.3")) =
      .pyStr (stripStr (str "1.2.3")) :=
  parse_value_spec.2.2.2.2.2.2.2.2 (str "1.2.3") (by decide)
    (fun h => absurd h (by decide)) (fun _ => by decide)

/-- C7: for every registered-function table and every call: unknown names
give a failure whose error text contains "not found"; a raising handler
gives a failure carrying the exception text; a returned string containing
the confirmation sentinel gives success=false, needs_confirmation=true
and content equal to that text; otherwise a success whose content is the
stringified return value. -/
theorem registry_call_spec :
    ∀ (tbl : List (Str × Handler)) (name : Str) (kwargs : Kwargs),
      (tbl.lookup name = none →
        UnifiedFunctionRegistry.call tbl name kwargs =
          { success := false, content := [], function_name := name,
            parameters := none,
            error := str "Function \x27" ++ name ++ str "\x27 not found",
            needs_confirmation := false } ∧
        containsStr (UnifiedFunctionRegistry.call tbl name kwargs).error
          (str "not found") = true) ∧
      (∀ (f : Handler) (e : Str), tbl.lookup name = some f → f kwargs = .error e →
        UnifiedFunctionRegistry.call tbl name kwargs =
          { success := false, content := [], function_name := name,
            parameters := some kwargs, error := e, needs_confirmation := false }) ∧
      (∀ (f : Handler) (s2 : Str), tbl.lookup name = some f →
        f kwargs = .ok (.pyStr s2) → containsStr s2 CONFIRM_SENTINEL = true →
        UnifiedFunctionRegistry.call tbl name kwargs =
          { success := false, content := s2, function_name := name,
            parameters := some kwargs, error := [], needs_confirmation := true }) ∧
      (∀ (f : Handler) (v : PyValue), tbl.lookup name = some f → f kwargs = .ok v →
        (∀ s2 : Str, v = .pyStr s2 → containsStr s2 CONFIRM_SENTINEL = false) →
        UnifiedFunctionRegistry.call tbl name kwargs =
          { success := true, content := pyToString v, function_name := name,
            parameters := some kwargs, error := [], needs_confirmation := false }) := by
  intro tbl name kwargs
  refine ⟨?_, ?_, ?_, ?_⟩
  · intro hlk
    have hcall : UnifiedFunctionRegistry.call tbl name kwargs =
        { success := false, content := [], function_name := name,
          parameters := none,
          error := str "Function \x27" ++ name ++ str "\x27 not found",
          needs_confirmation := false } := by
      unfold UnifiedFunctionRegistry.call
      rw [hlk]
    refine ⟨hcall, ?_⟩
    rw [hcall]
    apply (containsStr_iff (str "not found") _).mpr
    have hsplit : str "Function \x27" ++ name ++ str "\x27 not found" =
        (str "Function \x27" ++ name ++ str "\x27 ") ++ str "not found" := by
      simp only [List.append_assoc]
      rfl
    rw [hsplit]
    exact (List.suffix_append _ _).isInfix
  · intro f e hlk hres
    unfold UnifiedFunctionRegistry.call
    rw [hlk]
    simp only []
    rw [hres]
  · intro f s2 hlk hres hconf
    unfold UnifiedFunctionRegistry.call
    rw [hlk]
    simp only []
    rw [hres]
    simp only [hconf, if_true]
  · intro f v hlk hres hnconf
    unfold UnifiedFunctionRegistry.call
    rw [hlk]
    simp only []
    rw [hres]
    cases v with
    | pyStr s2 =>
      simp only [hnconf s2 rfl, Bool.false_eq_true, if_false]
      rfl
    | pyInt n => rfl
    | pyFloat fl => rfl
    | pyBool b => rfl
    | pyNone => rfl
    | pyList xs => rfl
    | pyDict kvs => rfl

def wTbl : List (Str × Handler) :=
  [(str "f_ok", fun _ => .ok (.pyInt 7)),
   (str "f_err", fun _ => .error (str "boom")),
   (str "f_conf", fun _ => .ok (.pyStr (str "发送消息前需要用户输入Y确认")))]

/-- Witness: the four call outcomes on a concrete table. -/
theorem registry_call_spec_witness :
    (UnifiedFunctionRegistry.call wTbl (str "nope") [] =
      { success := false, content := [], function_name := str "nope",
        parameters := none,
        error := str "Function \x27" ++ str "nope" ++ str "\x27 not found",
        needs_confirmation := false }) ∧
    (UnifiedFunctionRegistry.call wTbl (str "f_err") [] =
      { success := false, content := [], function_name := str "f_err",
        parameters := some [], error := str "boom", needs_confirmation := false }) ∧
    (UnifiedFunctionRegistry.call wTbl (str "f_conf") [] =
      { success := false, content := str "发送消息前需要用户输入Y确认",
        function_name := str "f_conf", parameters := some [], error := [],
        needs_confirmation := true }) ∧
    (UnifiedFunctionRegistry.call wTbl (str "f_ok") [] =
      { success := true, content := pyToString (.pyInt 7),
        function_name := str "f_ok", parameters := some [], error := [],
        needs_confirmation := false }) := by
  have h := registry_call_spec
  refine ⟨((h wTbl (str "nope") []).1 rfl).1, ?_, ?_, ?_⟩
  · exact (h wTbl (str "f_err") []).2.1 (fun _ => .error (str "boom")) (str "boom")
      rfl rfl
  · exact (h wTbl (str "f_conf") []).2.2.1
      (fun _ => .ok (.pyStr (str "发送消息前需要用户输入Y确认")))
      (str "发送消息前需要用户输入Y确认") rfl rfl (by decide)
  · exact (h wTbl (str "f_ok") []).2.2.2 (fun _ => .ok (.pyInt 7)) (.pyInt 7)
      rfl rfl (fun s2 hs => by simp at hs)
